import Mathlib

/-!
# Field-list reconciliation of the `tss_secret` resource

A shallow embedding of `resource_secret.go`: the outbound conversion
`resourceSecretToModel` (configuration items + template → server fields), the
inbound conversion `modelToResourceSecret` (server fields + prior items → stored
items) and the `DiffSuppressFunc` of the `item` attribute, followed by theorems
about them.

Go strings are byte sequences, so they are embedded as lists of bytes.  A
`map[string]interface{}` item is embedded as a record with one optional entry per
schema key (`none` = key absent from the map).  Go `int` values that are only
copied are embedded as `Int`.
-/

namespace TssSecret

/-! ## Strings -/

/-- A Go string: an immutable sequence of bytes. -/
abbrev GoString := List (Fin 256)

/-- The bytes of an ASCII literal. -/
def str (s : String) : GoString := s.toList.map (fun c => Fin.ofNat c.toNat)

/-! ## `encoding/base64`, `StdEncoding` -/

/-- Modelled from the spec: the alphabet table `encodeStd` of Go's `encoding/base64`
(library code outside the repository), the RFC 4648 standard alphabet
`A-Z a-z 0-9 + /`, as a function from a sextet to its character. -/
def encodeStd (i : Nat) : Fin 256 :=
  if i < 26 then Fin.ofNat (65 + i)
  else if i < 52 then Fin.ofNat (97 + (i - 26))
  else if i < 62 then Fin.ofNat (48 + (i - 52))
  else if i = 62 then 43
  else 47

/-- Modelled from the spec: the inverse table `decodeMap` of Go's `StdEncoding`
(library code outside the repository); `none` stands for the entry `0xff` of a
byte outside the alphabet. -/
def decodeMap (c : Fin 256) : Option Nat :=
  if 65 ≤ c.val ∧ c.val ≤ 90 then some (c.val - 65)
  else if 97 ≤ c.val ∧ c.val ≤ 122 then some (c.val - 71)
  else if 48 ≤ c.val ∧ c.val ≤ 57 then some (c.val + 4)
  else if c.val = 43 then some 62
  else if c.val = 47 then some 63
  else none

/-- The padding character `=` of `StdEncoding`. -/
def padChar : Fin 256 := 61

/-- Modelled from the spec: `base64.StdEncoding.EncodeToString` of the Go standard
library (outside the repository): every three bytes become four alphabet
characters; a remainder of one or two bytes is encoded to two or three characters
and padded with `=` to four. -/
def encodeToString : GoString → GoString
  | [] => []
  | [a] =>
    let val := a.val * 65536
    [encodeStd (val / 262144 % 64), encodeStd (val / 4096 % 64), padChar, padChar]
  | [a, b] =>
    let val := a.val * 65536 + b.val * 256
    [encodeStd (val / 262144 % 64), encodeStd (val / 4096 % 64), encodeStd (val / 64 % 64), padChar]
  | a :: b :: c :: rest =>
    let val := a.val * 65536 + b.val * 256 + c.val
    encodeStd (val / 262144 % 64) :: encodeStd (val / 4096 % 64) :: encodeStd (val / 64 % 64)
      :: encodeStd (val % 64) :: encodeToString rest

/-- Line breaks `\n` and `\r`, which the decoder skips. -/
def isNewline (c : Fin 256) : Bool := c.val = 10 || c.val = 13

/-- The decoder's "skip over newlines" loop. -/
def skipNewlines : GoString → GoString
  | [] => []
  | c :: rest => if isNewline c then skipNewlines rest else c :: rest

/-- The bytes a quantum of `dlen` sextets yields (`dlen - 1` of them), from
`val = d0<<18 | d1<<12 | d2<<6 | d3`; the encoding is not strict, so the unused low
bits of a padded quantum are dropped unchecked. -/
def quantumBytes (dbuf : List Nat) : GoString :=
  let val := dbuf.getD 0 0 * 262144 + dbuf.getD 1 0 * 4096 + dbuf.getD 2 0 * 64 + dbuf.getD 3 0
  ([Fin.ofNat (val / 65536), Fin.ofNat (val / 256), Fin.ofNat val] : GoString).take (dbuf.length - 1)

/-- What the decoder does once it has read a padding character with `dbuf` sextets
of the current quantum collected; `rest` is the input after that character. -/
def decodePadding (dbuf : List Nat) (rest : GoString) : Option GoString :=
  if dbuf.length < 2 then none
  else if dbuf.length = 2 then
    match skipNewlines rest with
    | [] => none
    | c :: rest2 =>
      if c = padChar then
        (match skipNewlines rest2 with
         | [] => some (quantumBytes dbuf)
         | _ :: _ => none)
      else none
  else
    match skipNewlines rest with
    | [] => some (quantumBytes dbuf)
    | _ :: _ => none

/-- The decoding loop: `dbuf` holds the sextets of the quantum being read. -/
def decodeLoop : GoString → List Nat → Option GoString
  | [], dbuf => if dbuf.length = 0 then some [] else none
  | c :: rest, dbuf =>
    match decodeMap c with
    | some out =>
      if dbuf.length = 3 then
        (decodeLoop rest []).map (fun tail => quantumBytes (dbuf ++ [out]) ++ tail)
      else decodeLoop rest (dbuf ++ [out])
    | none =>
      if isNewline c then decodeLoop rest dbuf
      else if c = padChar then decodePadding dbuf rest
      else none

/-- Modelled from the spec: `base64.StdEncoding.DecodeString` of the Go standard
library (outside the repository), padded and not strict; `none` stands for a
`CorruptInputError` (the offset it carries is not modelled). -/
def decodeString (s : GoString) : Option GoString := decodeLoop s []

/-! ## The server model (`tss-sdk-go/server`) -/

/-- Modelled from the spec: the type `server.SecretTemplateField` of the SDK, with
the members the provider reads. -/
structure SecretTemplateField where
  SecretTemplateFieldID : Int := 0
  FieldSlugName : GoString := []
  IsFile : Bool := false
deriving DecidableEq, Repr

/-- Modelled from the spec: the type `server.SecretTemplate` of the SDK. -/
structure SecretTemplate where
  Fields : List SecretTemplateField := []
deriving DecidableEq, Repr

/-- Modelled from the spec: `SecretTemplate.GetField` of the SDK (outside the
repository): the first field definition of the template whose slug is the given one. -/
def SecretTemplate.GetField (template : SecretTemplate) (slug : GoString) :
    Option SecretTemplateField :=
  template.Fields.find? (fun f => decide (slug = f.FieldSlugName))

/-- Modelled from the spec: the type `server.SecretField` of the SDK; the defaults
are Go's zero values. -/
structure SecretField where
  ItemID : Int := 0
  FieldID : Int := 0
  FileAttachmentID : Int := 0
  FieldName : GoString := []
  Slug : GoString := []
  FieldDescription : GoString := []
  Filename : GoString := []
  ItemValue : GoString := []
  IsFile : Bool := false
  IsNotes : Bool := false
  IsPassword : Bool := false
deriving DecidableEq, Repr

/-- Modelled from the spec: the type `server.SshKeyArgs` of the SDK. -/
structure SshKeyArgs where
  GeneratePassphrase : Bool
  GenerateSshKeys : Bool
deriving DecidableEq, Repr

/-- Modelled from the spec: the type `server.Secret` of the SDK; `Fields = none` is
a nil slice, `SshKeyArgs = none` a nil pointer. -/
structure Secret where
  ID : Int := 0
  Active : Bool := false
  AutoChangeEnabled : Bool := false
  CheckOutChangePasswordEnabled : Bool := false
  CheckOutEnabled : Bool := false
  CheckOutIntervalMinutes : Int := 0
  DelayIndexing : Bool := false
  EnableInheritPermissions : Bool := false
  EnableInheritSecretPolicy : Bool := false
  FolderID : Int := 0
  Name : GoString := []
  ProxyEnabled : Bool := false
  RequiresComment : Bool := false
  SecretPolicyID : Int := 0
  SecretTemplateID : Int := 0
  SessionRecordingEnabled : Bool := false
  SiteID : Int := 0
  WebLauncherRequiresIncognitoMode : Bool := false
  SshKeyArgs : Option SshKeyArgs := none
  Fields : Option (List SecretField) := none
deriving DecidableEq, Repr

/-! ## The resource data (`schema.ResourceData`) -/

/-- One element of the `item` list: a `map[string]interface{}` with the keys of the
item schema; `none` is an absent key. -/
structure ResourceItem where
  field : Option GoString := none
  value : Option GoString := none
  filename : Option GoString := none
  file_encoded : Option Bool := none
  field_description : Option GoString := none
  field_id : Option Int := none
  field_name : Option GoString := none
  file_attachment_id : Option Int := none
  is_file : Option Bool := none
  is_notes : Option Bool := none
  is_password : Option Bool := none
  item_id : Option Int := none
deriving DecidableEq, Repr

/-- The attributes of the resource as the conversions read and write them. -/
structure ResourceData where
  Id : GoString := []
  active : Bool := false
  auto_change_enabled : Bool := false
  check_out_change_password_enabled : Bool := false
  check_out_enabled : Bool := false
  check_out_interval_minutes : Int := 0
  delay_indexing : Bool := false
  enable_inherit_permissions : Bool := false
  enable_inherit_secret_policy : Bool := false
  folder_id : Int := 0
  name : GoString := []
  proxy_enabled : Bool := false
  requires_comment : Bool := false
  secret_policy_id : Int := 0
  secret_template_id : Int := 0
  session_recording_enabled : Bool := false
  site_id : Int := 0
  web_launcher_requires_incognito_mode : Bool := false
  generate_ssh_keys : Bool := false
  generate_ssh_passphrase : Bool := false
  item : List ResourceItem := []
deriving DecidableEq, Repr

/-- The errors the conversions return, by the message they carry. -/
inductive ConvError where
  /-- Message "an item on the secret named '%s' has an unrecognized field name '%s'". -/
  | unrecognizedFieldName (secretName : GoString) (slug : Option GoString)
  /-- Message "an item on the secret named '%s' is missing a field name". -/
  | missingFieldName (secretName : GoString)
  /-- Message "an item on the secret named '%s' is missing a value. To remove ...". -/
  | missingValue (secretName : GoString)
  /-- The `CorruptInputError` of the base64 decoder. -/
  | corruptInput
deriving DecidableEq, Repr

/-! ## Outbound: `resourceSecretToModel` -/

/-- The body of the loop over the configuration's items: the server field one item
is converted to, or the error that aborts the conversion. -/
def convertItem (secretName : GoString) (template : SecretTemplate) (resourceItemMap : ResourceItem) :
    Except ConvError SecretField :=
  match resourceItemMap.field with
  | none => .error (.missingFieldName secretName)
  | some slug =>
    match template.GetField slug with
    | none => .error (.unrecognizedFieldName secretName (some slug))
    | some templateField =>
      match resourceItemMap.value with
      | none => .error (.missingValue secretName)
      | some resourceValue =>
        let filename : GoString :=
          match resourceItemMap.filename with
          | some resourceFilename => resourceFilename
          | none => str "File.txt"
        if templateField.IsFile && resourceItemMap.file_encoded == some true then
          match decodeString resourceValue with
          | none => .error .corruptInput
          | some valueDecoded =>
            .ok { Slug := slug, FieldID := templateField.SecretTemplateFieldID,
                  ItemValue := valueDecoded, Filename := filename }
        else
          .ok { Slug := slug, FieldID := templateField.SecretTemplateFieldID,
                ItemValue := resourceValue, Filename := filename }

/-- The loop over the configuration's items, with the field collection built so far
and the set `initializedFields` of slugs seen so far. -/
def itemLoop (secretName : GoString) (template : SecretTemplate) :
    List ResourceItem → List SecretField → List GoString →
      Except ConvError (List SecretField × List GoString)
  | [], fields, initializedFields => .ok (fields, initializedFields)
  | resourceItem :: rest, fields, initializedFields =>
    match convertItem secretName template resourceItem with
    | .error e => .error e
    | .ok secretField =>
      itemLoop secretName template rest (fields ++ [secretField])
        (secretField.Slug :: initializedFields)

/-- The loop over the template's fields: every field whose slug was not initialized
is appended with an empty value. -/
def clearLoop : List SecretTemplateField → List GoString → List SecretField → List SecretField
  | [], _, fields => fields
  | templateField :: rest, initializedFields, fields =>
    if templateField.FieldSlugName ∈ initializedFields then
      clearLoop rest initializedFields fields
    else
      clearLoop rest initializedFields
        (fields ++ [{ Slug := templateField.FieldSlugName,
                      FieldID := templateField.SecretTemplateFieldID,
                      ItemValue := [] }])

/-- The directive `SshKeyArgs` built from the two generation flags. -/
def sshKeyArgsOf (generateSshKeys generateSshPassphrase : Bool) : Option SshKeyArgs :=
  if generateSshKeys || generateSshPassphrase then
    some { GeneratePassphrase := generateSshPassphrase, GenerateSshKeys := generateSshKeys }
  else none

/-- The function `resourceSecretToModel`: the Secret sent to the server for a
configuration, a template and an id, or the error of the first item that fails. -/
def resourceSecretToModel (resourceSecret : ResourceData) (template : SecretTemplate) (id : Int) :
    Except ConvError Secret :=
  match itemLoop resourceSecret.name template resourceSecret.item [] [] with
  | .error e => .error e
  | .ok (fields, initializedFields) =>
    .ok { ID := id
          Active := resourceSecret.active
          AutoChangeEnabled := resourceSecret.auto_change_enabled
          CheckOutChangePasswordEnabled := resourceSecret.check_out_change_password_enabled
          CheckOutEnabled := resourceSecret.check_out_enabled
          CheckOutIntervalMinutes := resourceSecret.check_out_interval_minutes
          DelayIndexing := resourceSecret.delay_indexing
          EnableInheritPermissions := resourceSecret.enable_inherit_permissions
          EnableInheritSecretPolicy := resourceSecret.enable_inherit_secret_policy
          FolderID := resourceSecret.folder_id
          Name := resourceSecret.name
          ProxyEnabled := resourceSecret.proxy_enabled
          RequiresComment := resourceSecret.requires_comment
          SecretPolicyID := resourceSecret.secret_policy_id
          SecretTemplateID := resourceSecret.secret_template_id
          SessionRecordingEnabled := resourceSecret.session_recording_enabled
          SiteID := resourceSecret.site_id
          WebLauncherRequiresIncognitoMode := resourceSecret.web_launcher_requires_incognito_mode
          SshKeyArgs := sshKeyArgsOf resourceSecret.generate_ssh_keys resourceSecret.generate_ssh_passphrase
          Fields := some (clearLoop template.Fields initializedFields fields) }

/-! ## Inbound: `modelToResourceSecret` -/

/-- Modelled from the spec: `strconv.Itoa` of the Go standard library (outside the
repository): the decimal representation of an integer. -/
def itoa (n : Int) : GoString :=
  match n with
  | Int.ofNat m => (Nat.toDigits 10 m).map (fun c => Fin.ofNat c.toNat)
  | Int.negSucc m => 45 :: (Nat.toDigits 10 (m + 1)).map (fun c => Fin.ofNat c.toNat)

/-- The function `mapModelFieldToResourceSecretItem`: eleven keys of the item are
overwritten from the server field; `file_encoded` is not touched. -/
def mapModelFieldToResourceSecretItem (field : SecretField) (resourceItem : ResourceItem) :
    ResourceItem :=
  { resourceItem with
    field := some field.Slug
    value := some field.ItemValue
    filename := some field.Filename
    field_description := some field.FieldDescription
    field_id := some field.FieldID
    field_name := some field.FieldName
    file_attachment_id := some field.FileAttachmentID
    is_file := some field.IsFile
    is_notes := some field.IsNotes
    is_password := some field.IsPassword
    item_id := some field.ItemID }

/-- The inner loop `for _, field = range model.Fields` with its `break`: the value
the variable `field` (declared outside the loop, `current` so far) has after the
loop, and whether the loop was left through the `break`.  Without a match the
variable keeps the last element it was assigned, or its zero value when there is
no element. -/
def scanFields (target : Option GoString) : List SecretField → SecretField → SecretField × Bool
  | [], current => (current, false)
  | field :: rest, _ =>
    if some field.Slug = target then (field, true) else scanFields target rest field

/-- The test `&field == nil` on the address of a local variable: false for every
value of the variable. -/
def addressIsNil (_field : SecretField) : Bool := false

/-- The loop over the prior items: each item is overwritten from the field left in
`field` by the inner loop (and re-encoded when it is an encoded file); the slugs
matched are recorded in `mappedFields`. -/
def priorLoop (modelName : GoString) (modelFields : List SecretField) :
    List ResourceItem → List GoString → Except ConvError (List ResourceItem × List GoString)
  | [], mappedFields => .ok ([], mappedFields)
  | resourceItem :: rest, mappedFields =>
    let scanned := scanFields resourceItem.field modelFields {}
    let field := scanned.1
    let mappedFields1 := if scanned.2 then field.Slug :: mappedFields else mappedFields
    if addressIsNil field then
      .error (.unrecognizedFieldName modelName resourceItem.field)
    else
      let mappedItem := mapModelFieldToResourceSecretItem field resourceItem
      let storedItem : ResourceItem :=
        if field.IsFile && mappedItem.file_encoded == some true then
          { mappedItem with value := mappedItem.value.map encodeToString }
        else mappedItem
      match priorLoop modelName modelFields rest mappedFields1 with
      | .error e => .error e
      | .ok (items, mappedFields2) => .ok (storedItem :: items, mappedFields2)

/-- The test `hasValue` of the second loop. -/
def hasValue (field : SecretField) : Bool :=
  if field.IsFile then decide (field.Filename ≠ []) else decide (field.ItemValue ≠ [])

/-- The loop over the server's fields: every field that is not mapped and has a
value is appended as a new item. -/
def surfaceLoop : List SecretField → List GoString → List ResourceItem → List ResourceItem
  | [], _, resourceItems => resourceItems
  | field :: rest, mappedFields, resourceItems =>
    if field.Slug ∈ mappedFields then surfaceLoop rest mappedFields resourceItems
    else if hasValue field then
      surfaceLoop rest mappedFields (resourceItems ++ [mapModelFieldToResourceSecretItem field {}])
    else surfaceLoop rest mappedFields resourceItems

/-- The item list `modelToResourceSecret` stores, from the server's field
collection and the prior item list. -/
def storedItems (modelName : GoString) (modelFields : Option (List SecretField))
    (resourceItems : List ResourceItem) : Except ConvError (List ResourceItem) :=
  match modelFields with
  | none => .ok []
  | some fields =>
    match priorLoop modelName fields resourceItems [] with
    | .error e => .error e
    | .ok (items, mappedFields) => .ok (surfaceLoop fields mappedFields items)

/-- The function `modelToResourceSecret`: the resource data after the server's
Secret has been written into it.  The generation flags are left as they are. -/
def modelToResourceSecret (model : Secret) (resourceSecret : ResourceData) :
    Except ConvError ResourceData :=
  match storedItems model.Name model.Fields resourceSecret.item with
  | .error e => .error e
  | .ok resourceItems =>
    .ok { resourceSecret with
          Id := itoa model.ID
          active := model.Active
          auto_change_enabled := model.AutoChangeEnabled
          check_out_change_password_enabled := model.CheckOutChangePasswordEnabled
          check_out_enabled := model.CheckOutEnabled
          check_out_interval_minutes := model.CheckOutIntervalMinutes
          delay_indexing := model.DelayIndexing
          enable_inherit_permissions := model.EnableInheritPermissions
          enable_inherit_secret_policy := model.EnableInheritSecretPolicy
          folder_id := model.FolderID
          name := model.Name
          proxy_enabled := model.ProxyEnabled
          requires_comment := model.RequiresComment
          secret_policy_id := model.SecretPolicyID
          secret_template_id := model.SecretTemplateID
          session_recording_enabled := model.SessionRecordingEnabled
          site_id := model.SiteID
          web_launcher_requires_incognito_mode := model.WebLauncherRequiresIncognitoMode
          item := resourceItems }

/-! ## The `DiffSuppressFunc` of `item` -/

/-- An ASCII decimal digit, the class `\d` of Go's regular expressions. -/
def isDigit (c : Fin 256) : Bool := decide (48 ≤ c.val) && decide (c.val ≤ 57)

/-- Removes a literal from the front of a string, if it is there. -/
def stripLiteral : GoString → GoString → Option GoString
  | [], s => some s
  | _ :: _, [] => none
  | p :: ps, c :: cs => if p = c then stripLiteral ps cs else none

/-- Modelled from the spec: `regexp.Match` of the Go standard library (outside the
repository) for the pattern `^item\.\d+\.field$`: the literal `item.`, one or more
digits, the literal `.field`, and then the end of the text. -/
def matchItemField (key : GoString) : Bool :=
  match stripLiteral (str "item.") key with
  | none => false
  | some rest =>
    let digits := rest.takeWhile isDigit
    let tail := rest.dropWhile isDigit
    decide (digits ≠ []) && decide (tail = str ".field")

/-- The value of a string of decimal digits, most significant first, continuing
from `acc`; `none` when a byte is not a digit. -/
def parseDigits : GoString → Nat → Option Nat
  | [], acc => some acc
  | c :: rest, acc => if isDigit c then parseDigits rest (acc * 10 + (c.val - 48)) else none

/-- The width of Go's `int` on the 64-bit platforms the provider is built for. -/
def intSize : Nat := 64

/-- Modelled from the spec: `strconv.Atoi` of the Go standard library (outside the
repository): an optional sign, then one or more decimal digits, with a value that
fits `int`; `none` stands for a syntax or range error. -/
def atoi (s : GoString) : Option Int :=
  match s with
  | [] => none
  | c :: rest =>
    let neg := decide (c.val = 45)
    let digits := if c.val = 45 ∨ c.val = 43 then rest else s
    match digits with
    | [] => none
    | _ :: _ =>
      match parseDigits digits 0 with
      | none => none
      | some n =>
        if neg then (if n ≤ 2 ^ (intSize - 1) then some (-(n : Int)) else none)
        else (if n < 2 ^ (intSize - 1) then some (n : Int) else none)

/-- The `DiffSuppressFunc` of the `item` attribute: `true` means that the change of
`key` from `old` to `new` is not a difference. -/
def DiffSuppressFunc (key old new : GoString) (resourceSecret : ResourceData) : Bool :=
  if old = new then true
  else
    if resourceSecret.generate_ssh_keys || resourceSecret.generate_ssh_passphrase then
      if matchItemField key && decide (new = []) then true
      else if key = str "item.#" then
        match atoi old, atoi new with
        | some numOldItems, some numNewItems => decide (numNewItems < numOldItems)
        | _, _ => false
      else false
    else false

/-! ## Auxiliary definitions for the statements and proofs -/

/-- The fields the item loop appends for a list of items: the conversion of each
item in order, or the error of the first item that fails. -/
def convertItems (secretName : GoString) (template : SecretTemplate) :
    List ResourceItem → Except ConvError (List SecretField)
  | [] => .ok []
  | resourceItem :: rest =>
    match convertItem secretName template resourceItem with
    | .error e => .error e
    | .ok secretField =>
      match convertItems secretName template rest with
      | .error e => .error e
      | .ok fields => .ok (secretField :: fields)

/-- The field the template loop appends for a field definition that was not
initialized. -/
def clearedField (templateField : SecretTemplateField) : SecretField :=
  { Slug := templateField.FieldSlugName, FieldID := templateField.SecretTemplateFieldID,
    ItemValue := [] }

/-- The item the prior loop stores for one prior item. -/
def storeItem (modelFields : List SecretField) (resourceItem : ResourceItem) : ResourceItem :=
  let field := (scanFields resourceItem.field modelFields {}).1
  let mappedItem := mapModelFieldToResourceSecretItem field resourceItem
  if field.IsFile && mappedItem.file_encoded == some true then
    { mappedItem with value := mappedItem.value.map encodeToString }
  else mappedItem

/-- The slugs the prior loop records in `mappedFields` for a list of prior items. -/
def matchedSlugs (modelFields : List SecretField) : List ResourceItem → List GoString
  | [] => []
  | resourceItem :: rest =>
    if (scanFields resourceItem.field modelFields {}).2 then
      (scanFields resourceItem.field modelFields {}).1.Slug :: matchedSlugs modelFields rest
    else matchedSlugs modelFields rest

/-- Modelled from the spec: a field as the stand-in server returns it: the field it
received, carrying the is-file flag of the template's definition for its slug. -/
def standInField (template : SecretTemplate) (field : SecretField) : SecretField :=
  { field with
    IsFile := match template.GetField field.Slug with
      | some templateField => templateField.IsFile
      | none => false }

/-- Modelled from the spec: the in-memory stand-in for the remote server of the
round-trip properties: it returns the Secret it received, every field carrying the
is-file flag of the template's definition for its slug. -/
def standInServer (template : SecretTemplate) (secret : Secret) : Secret :=
  { secret with Fields := secret.Fields.map (fun fields => fields.map (standInField template)) }

/-- The value the outbound conversion transfers for an item bound to a template
field: the base64 decoding of the raw value for an encoded file item, the raw value
otherwise; `none` when the value is missing or is not decodable. -/
def transferredValue (templateField : SecretTemplateField) (resourceItem : ResourceItem) :
    Option GoString :=
  match resourceItem.value with
  | none => none
  | some resourceValue =>
    if templateField.IsFile && resourceItem.file_encoded == some true then decodeString resourceValue
    else some resourceValue

/-- A changed attribute that is the slug of an item: `item.<decimal index>.field`. -/
def IsItemFieldKey (key : GoString) : Prop :=
  ∃ index : GoString, index ≠ [] ∧ (∀ d ∈ index, 48 ≤ d.val ∧ d.val ≤ 57) ∧
    key = str "item." ++ index ++ str ".field"

/-! ## The update callback: `resourceSecretUpdate` -/

/-- An error of the remote client, by its message. -/
abbrev RemoteError := GoString

/-- Modelled from the spec: the remote client `server.Server` of the SDK (outside the
repository), by the two calls the update callback makes: the template lookup and
the update of a Secret. -/
structure Server where
  SecretTemplate : Int → Except RemoteError TssSecret.SecretTemplate
  UpdateSecret : Secret → Except RemoteError Secret

/-- The errors `resourceSecretUpdate` returns, by the step that raised them. -/
inductive UpdateError where
  /-- The id of the resource is not an integer (`strconv.Atoi`). -/
  | idNotInteger
  /-- The client could not be configured (`server.New`). -/
  | configuration (e : RemoteError)
  /-- The template could not be fetched. -/
  | fetchTemplate (e : RemoteError)
  /-- The configuration could not be converted to a Secret. -/
  | toModel (e : ConvError)
  /-- The remote update failed. -/
  | remote (e : RemoteError)
  /-- The returned Secret could not be converted to resource data. -/
  | toResource (e : ConvError)
deriving DecidableEq, Repr

/-- The function `fetchTemplateForResourceSecret`. -/
def fetchTemplateForResourceSecret (resourceSecret : ResourceData) (server : Server) :
    Except RemoteError SecretTemplate :=
  server.SecretTemplate resourceSecret.secret_template_id

/-- The function `resourceSecretUpdate`; `newServer` is the outcome of `server.New`.
The Secret handed to `UpdateSecret` is the converted configuration with
`SshKeyArgs` set to nil. -/
def resourceSecretUpdate (resourceSecret : ResourceData) (newServer : Except RemoteError Server) :
    Except UpdateError ResourceData :=
  match atoi resourceSecret.Id with
  | none => .error .idNotInteger
  | some id =>
    match newServer with
    | .error e => .error (.configuration e)
    | .ok tss =>
      match fetchTemplateForResourceSecret resourceSecret tss with
      | .error e => .error (.fetchTemplate e)
      | .ok template =>
        match resourceSecretToModel resourceSecret template id with
        | .error e => .error (.toModel e)
        | .ok secretModel =>
          match tss.UpdateSecret { secretModel with SshKeyArgs := none } with
          | .error e => .error (.remote e)
          | .ok secret =>
            match modelToResourceSecret secret resourceSecret with
            | .error e => .error (.toResource e)
            | .ok resourceSecret1 => .ok resourceSecret1

/-! ## The order of the checks on an item, in the specification's words -/

/-- The error the specification assigns to an item, its checks applied in the order
slug (missing, then unknown), value (missing), encoding (malformed base64 on an
encoded file item); `none` for a valid item. -/
def specItemError (secretName : GoString) (template : SecretTemplate) (item : ResourceItem) :
    Option ConvError :=
  if item.field = none then some (.missingFieldName secretName)
  else if (item.field.bind template.GetField) = none then
    some (.unrecognizedFieldName secretName item.field)
  else if item.value = none then some (.missingValue secretName)
  else if (item.field.bind template.GetField).any (·.IsFile) ∧ item.file_encoded = some true ∧
      (item.value.bind decodeString) = none then some .corruptInput
  else none

/-! ## Example data -/

/-- A template with two text fields and one file field. -/
def exampleTemplate : SecretTemplate :=
  { Fields := [{ SecretTemplateFieldID := 101, FieldSlugName := str "username" },
               { SecretTemplateFieldID := 102, FieldSlugName := str "password" },
               { SecretTemplateFieldID := 103, FieldSlugName := str "privatekey", IsFile := true }] }

/-- An item that names a field the example template does not have. -/
def unknownItem : ResourceItem := { field := some (str "doesnotexist"), value := some (str "x") }

/-- An item with a slug of the example template and no value. -/
def valuelessItem : ResourceItem := { field := some (str "username") }

/-- A valid text item. -/
def passwordItem : ResourceItem := { field := some (str "password"), value := some (str "s3cr3t") }

/-- A file item whose value is the base64 encoding of `hello`. -/
def privatekeyItem : ResourceItem :=
  { field := some (str "privatekey"), value := some (str "aGVsbG8="), file_encoded := some true }

/-- A server field with a slug and a value. -/
def textField (slug value : String) : SecretField := { Slug := str slug, ItemValue := str value }

/-- A prior item that names a slug. -/
def priorItem (slug : String) : ResourceItem := { field := some (str slug) }

/-- A stand-in client that knows the example template and, like the server, refuses
an update that carries key-generation arguments; otherwise it returns the Secret it
was given. -/
def exampleServer : Server :=
  { SecretTemplate := fun _ => .ok exampleTemplate
    UpdateSecret := fun secret =>
      if secret.SshKeyArgs = none then .ok secret else .error (str "key args on update") }

/-- A configuration with the key-generation directive set. -/
def generatingConfig : ResourceData :=
  { Id := str "7", name := str "s", generate_ssh_keys := true, item := [passwordItem] }

/-! ## Theorems -/

theorem decodeMap_encodeStd_fin : ∀ i : Fin 64, decodeMap (encodeStd i.val) = some i.val := by
  decide

theorem decodeMap_encodeStd (n : Nat) : decodeMap (encodeStd (n % 64)) = some (n % 64) :=
  decodeMap_encodeStd_fin ⟨n % 64, Nat.mod_lt _ (by decide)⟩

theorem decodeMap_padChar : decodeMap padChar = none := by decide

theorem isNewline_padChar : isNewline padChar = false := by decide

theorem quantum_one (a : Fin 256) :
    quantumBytes [a.val * 65536 / 262144 % 64, a.val * 65536 / 4096 % 64] = [a] := by
  simp only [quantumBytes, List.getD_cons_zero, List.getD_cons_succ, List.getD_nil, List.length_cons,
    List.length_nil]
  simp only [List.take, Nat.reduceAdd, Nat.reduceSub]
  congr 1
  apply Fin.ext
  simp only [Fin.ofNat, Fin.val_mk]
  omega

theorem quantum_two (a b : Fin 256) :
    quantumBytes [(a.val * 65536 + b.val * 256) / 262144 % 64,
      (a.val * 65536 + b.val * 256) / 4096 % 64, (a.val * 65536 + b.val * 256) / 64 % 64] = [a, b] := by
  simp only [quantumBytes, List.getD_cons_zero, List.getD_cons_succ, List.getD_nil, List.length_cons,
    List.length_nil]
  simp only [List.take, Nat.reduceAdd, Nat.reduceSub]
  congr 1
  · apply Fin.ext
    simp only [Fin.ofNat, Fin.val_mk]
    omega
  · congr 1
    apply Fin.ext
    simp only [Fin.ofNat, Fin.val_mk]
    omega

theorem quantum_three (a b c : Fin 256) :
    quantumBytes [(a.val * 65536 + b.val * 256 + c.val) / 262144 % 64,
      (a.val * 65536 + b.val * 256 + c.val) / 4096 % 64,
      (a.val * 65536 + b.val * 256 + c.val) / 64 % 64,
      (a.val * 65536 + b.val * 256 + c.val) % 64] = [a, b, c] := by
  simp only [quantumBytes, List.getD_cons_zero, List.getD_cons_succ, List.getD_nil, List.length_cons,
    List.length_nil]
  simp only [List.take, Nat.reduceAdd, Nat.reduceSub]
  congr 1
  · apply Fin.ext
    simp only [Fin.ofNat, Fin.val_mk]
    omega
  · congr 1
    · apply Fin.ext
      simp only [Fin.ofNat, Fin.val_mk]
      omega
    · congr 1
      apply Fin.ext
      simp only [Fin.ofNat, Fin.val_mk]
      omega

/-- Decoding undoes encoding: `DecodeString (EncodeToString p) = p`. -/
theorem decodeString_encodeToString (p : GoString) : decodeString (encodeToString p) = some p := by
  unfold decodeString
  induction p using encodeToString.induct with
  | case1 => simp [encodeToString, decodeLoop]
  | case2 a =>
    simp only [encodeToString, decodeLoop, decodeMap_encodeStd, decodeMap_padChar, isNewline_padChar,
      decodePadding, skipNewlines, List.length_nil, List.length_cons, List.nil_append,
      List.cons_append]
    simp [quantum_one, skipNewlines]
  | case3 a b =>
    simp only [encodeToString, decodeLoop, decodeMap_encodeStd, decodeMap_padChar, isNewline_padChar,
      decodePadding, skipNewlines, List.length_nil, List.length_cons, List.nil_append,
      List.cons_append]
    simp [quantum_two, skipNewlines]
  | case4 a b c rest ih =>
    simp only [encodeToString, decodeLoop, decodeMap_encodeStd, List.length_nil, List.length_cons,
      List.nil_append, List.cons_append]
    simp [ih, quantum_three]

/-! ### The SDK lookup -/

theorem getField_some {template : SecretTemplate} {slug : GoString} {tf : SecretTemplateField}
    (h : template.GetField slug = some tf) : tf ∈ template.Fields ∧ tf.FieldSlugName = slug := by
  unfold SecretTemplate.GetField at h
  refine ⟨List.mem_of_find?_eq_some h, ?_⟩
  have := List.find?_some h
  simp only [decide_eq_true_eq] at this
  exact this.symm

theorem getField_eq_none {template : SecretTemplate} {slug : GoString} :
    template.GetField slug = none ↔ ∀ d ∈ template.Fields, d.FieldSlugName ≠ slug := by
  unfold SecretTemplate.GetField
  rw [List.find?_eq_none]
  constructor
  · intro h d hd heq
    exact h d hd (by simp [heq])
  · intro h d hd
    have := h d hd
    simpa using fun heq => this heq.symm

/-! ### The two loops of the outbound conversion -/

theorem itemLoop_eq (secretName : GoString) (template : SecretTemplate) (items : List ResourceItem) :
    ∀ (fields : List SecretField) (initialized : List GoString),
      itemLoop secretName template items fields initialized =
        match convertItems secretName template items with
        | .error e => .error e
        | .ok cs => .ok (fields ++ cs, (cs.map (·.Slug)).reverse ++ initialized) := by
  induction items with
  | nil => intro fields initialized; simp [itemLoop, convertItems]
  | cons item rest ih =>
    intro fields initialized
    simp only [itemLoop, convertItems]
    cases hc : convertItem secretName template item with
    | error e => rfl
    | ok f =>
      simp only [ih]
      cases convertItems secretName template rest with
      | error e => rfl
      | ok cs => simp

theorem clearLoop_eq (templateFields : List SecretTemplateField) (initialized : List GoString) :
    ∀ fields : List SecretField,
      clearLoop templateFields initialized fields =
        fields ++ (templateFields.filter
          (fun tf => decide (tf.FieldSlugName ∉ initialized))).map clearedField := by
  induction templateFields with
  | nil => intro fields; simp [clearLoop]
  | cons tf rest ih =>
    intro fields
    unfold clearLoop
    by_cases h : tf.FieldSlugName ∈ initialized
    · simp [h, ih]
    · simp [h, ih, clearedField]

/-- The field collection of a successful outbound conversion: the converted items
followed by the cleared template fields. -/
theorem resourceSecretToModel_ok {resourceSecret : ResourceData} {template : SecretTemplate}
    {id : Int} {secret : Secret}
    (h : resourceSecretToModel resourceSecret template id = .ok secret) :
    ∃ cs, convertItems resourceSecret.name template resourceSecret.item = .ok cs ∧
      secret.Fields = some (cs ++ (template.Fields.filter
        (fun tf => decide (tf.FieldSlugName ∉ cs.map (·.Slug)))).map clearedField) := by
  unfold resourceSecretToModel at h
  rw [itemLoop_eq] at h
  cases hc : convertItems resourceSecret.name template resourceSecret.item with
  | error e => rw [hc] at h; simp at h
  | ok cs =>
    rw [hc] at h
    simp only [List.nil_append, List.append_nil, Except.ok.injEq] at h
    refine ⟨cs, rfl, ?_⟩
    rw [← h]
    simp [clearLoop_eq]

theorem resourceSecretToModel_error {resourceSecret : ResourceData} {template : SecretTemplate}
    {id : Int} {e : ConvError}
    (h : convertItems resourceSecret.name template resourceSecret.item = .error e) :
    resourceSecretToModel resourceSecret template id = .error e := by
  unfold resourceSecretToModel
  rw [itemLoop_eq, h]

theorem resourceSecretToModel_isOk {resourceSecret : ResourceData} {template : SecretTemplate}
    (id : Int) {cs : List SecretField}
    (h : convertItems resourceSecret.name template resourceSecret.item = .ok cs) :
    ∃ secret, resourceSecretToModel resourceSecret template id = .ok secret := by
  unfold resourceSecretToModel
  rw [itemLoop_eq, h]
  exact ⟨_, rfl⟩

/-! ### Conversion of a list of items -/

theorem convertItems_ok_cons {secretName : GoString} {template : SecretTemplate}
    {item : ResourceItem} {rest : List ResourceItem} {cs : List SecretField}
    (h : convertItems secretName template (item :: rest) = .ok cs) :
    ∃ f fs, cs = f :: fs ∧ convertItem secretName template item = .ok f ∧
      convertItems secretName template rest = .ok fs := by
  simp only [convertItems] at h
  cases hc : convertItem secretName template item with
  | error e => rw [hc] at h; simp at h
  | ok f =>
    rw [hc] at h
    cases hr : convertItems secretName template rest with
    | error e => rw [hr] at h; simp at h
    | ok fs =>
      rw [hr] at h
      simp only [Except.ok.injEq] at h
      exact ⟨f, fs, h.symm, rfl, rfl⟩

theorem convertItems_ok_length {secretName : GoString} {template : SecretTemplate} :
    ∀ {items : List ResourceItem} {cs : List SecretField},
      convertItems secretName template items = .ok cs → cs.length = items.length := by
  intro items
  induction items with
  | nil => intro cs h; simp [convertItems] at h; simp [← h]
  | cons item rest ih =>
    intro cs h
    obtain ⟨f, fs, rfl, _, hr⟩ := convertItems_ok_cons h
    simp [ih hr]

/-- A list with an item that fails is not converted; the error is that item's when
the items before it convert. -/
theorem convertItems_error {secretName : GoString} {template : SecretTemplate}
    {item : ResourceItem} {e : ConvError}
    (hitem : convertItem secretName template item = .error e) (post : List ResourceItem) :
    ∀ pre : List ResourceItem,
      (∃ e1, convertItems secretName template (pre ++ item :: post) = .error e1) ∧
      ((∀ p ∈ pre, ∃ f, convertItem secretName template p = .ok f) →
        convertItems secretName template (pre ++ item :: post) = .error e) := by
  intro pre
  induction pre with
  | nil =>
    simp [convertItems, hitem]
  | cons p pre ih =>
    obtain ⟨⟨e1, he1⟩, ih2⟩ := ih
    simp only [List.cons_append, convertItems]
    cases hp : convertItem secretName template p with
    | error e2 =>
      refine ⟨⟨e2, rfl⟩, ?_⟩
      intro hall
      obtain ⟨f, hf⟩ := hall p (List.mem_cons_self _ _)
      rw [hp] at hf
      simp at hf
    | ok f =>
      have happ : pre.append (item :: post) = pre ++ item :: post := rfl
      refine ⟨⟨e1, by simp only [happ, he1]⟩, ?_⟩
      intro hall
      simp only [happ, ih2 (fun q hq => hall q (List.mem_cons_of_mem _ hq))]

/-- What a successful conversion of one item says about the item and its field. -/
theorem convertItem_ok {secretName : GoString} {template : SecretTemplate}
    {item : ResourceItem} {f : SecretField}
    (h : convertItem secretName template item = .ok f) :
    ∃ slug tf, item.field = some slug ∧ template.GetField slug = some tf ∧
      transferredValue tf item = some f.ItemValue ∧
      f = { Slug := slug, FieldID := tf.SecretTemplateFieldID, ItemValue := f.ItemValue,
            Filename := item.filename.getD (str "File.txt") } := by
  unfold convertItem at h
  cases hfield : item.field with
  | none => rw [hfield] at h; simp at h
  | some slug =>
    cases htf : template.GetField slug with
    | none => rw [hfield] at h; simp [htf] at h
    | some tf =>
      cases hv : item.value with
      | none => rw [hfield] at h; simp [htf, hv] at h
      | some v =>
        rw [hfield] at h
        simp only [htf, hv] at h
        have hfn : (match item.filename with
            | some resourceFilename => resourceFilename
            | none => str "File.txt") = item.filename.getD (str "File.txt") := by
          cases item.filename <;> rfl
        rw [hfn] at h
        refine ⟨slug, tf, rfl, htf, ?_⟩
        unfold transferredValue
        rw [hv]
        by_cases hcond : (tf.IsFile && item.file_encoded == some true) = true
        · simp only [hcond, if_true] at h ⊢
          cases hd : decodeString v with
          | none => rw [hd] at h; simp at h
          | some d =>
            rw [hd] at h
            simp only [Except.ok.injEq] at h
            subst h
            exact ⟨rfl, rfl⟩
        · simp only [hcond] at h ⊢
          simp only [Bool.false_eq_true, if_false, Except.ok.injEq] at h
          subst h
          exact ⟨rfl, rfl⟩

/-- A list with an item that fails is rejected with the error of its first failing
item, which stands at or before that item; every item before the first failing one
converts. -/
theorem convertItems_first_failure {secretName : GoString} {template : SecretTemplate}
    {item : ResourceItem} {e0 : ConvError}
    (hitem : convertItem secretName template item = .error e0) (post : List ResourceItem) :
    ∀ pre : List ResourceItem,
      ∃ (first : List ResourceItem) (failing : ResourceItem) (rest : List ResourceItem)
        (e : ConvError),
        pre ++ item :: post = first ++ failing :: rest ∧ first.length ≤ pre.length ∧
        (∀ p ∈ first, ∃ f, convertItem secretName template p = .ok f) ∧
        convertItem secretName template failing = .error e ∧
        convertItems secretName template (pre ++ item :: post) = .error e := by
  intro pre
  induction pre with
  | nil =>
    refine ⟨[], item, post, e0, rfl, Nat.le_refl _, ?_, hitem, ?_⟩
    · intro p hp; simp at hp
    · simp [convertItems, hitem]
  | cons p pre ih =>
    obtain ⟨first, failing, rest, e, hsplit, hlen, hfirst, hfail, herr⟩ := ih
    cases hp : convertItem secretName template p with
    | error e2 =>
      refine ⟨[], p, pre ++ item :: post, e2, rfl, Nat.zero_le _, ?_, hp, ?_⟩
      · intro q hq; simp at hq
      · simp only [List.cons_append, convertItems, hp]
    | ok f =>
      refine ⟨p :: first, failing, rest, e, ?_, ?_, ?_, hfail, ?_⟩
      · rw [List.cons_append, hsplit, List.cons_append]
      · simp only [List.length_cons]; omega
      · intro q hq
        rcases List.mem_cons.1 hq with rfl | hq
        · exact ⟨f, hp⟩
        · exact hfirst q hq
      · have happ : pre.append (item :: post) = pre ++ item :: post := rfl
        simp only [List.cons_append, convertItems, hp, happ, herr]

/-! ### Rejection of invalid items (C4, C10) and value transfer (C9) -/

/-- C4, as stated, fails: a list that contains an item with an unknown slug
(`doesnotexist`) after an item without a value is rejected with the missing-value
error of the earlier item, not with the unrecognized-field-name error. -/
theorem unknown_slug_error_kind_counterexample :
    (∃ item ∈ [valuelessItem, unknownItem], ∃ slug, item.field = some slug ∧
        ∀ d ∈ exampleTemplate.Fields, d.FieldSlugName ≠ slug) ∧
      resourceSecretToModel { name := str "s", item := [valuelessItem, unknownItem] }
        exampleTemplate 0 = .error (.missingValue (str "s")) ∧
      ∀ slug, resourceSecretToModel { name := str "s", item := [valuelessItem, unknownItem] }
        exampleTemplate 0 ≠ .error (.unrecognizedFieldName (str "s") slug) := by
  refine ⟨⟨unknownItem, by simp, str "doesnotexist", rfl, by decide⟩, rfl, ?_⟩
  intro slug
  have h : resourceSecretToModel { name := str "s", item := [valuelessItem, unknownItem] }
      exampleTemplate 0 = .error (.missingValue (str "s")) := rfl
  rw [h]
  simp

/-- C4, amended: a configuration that contains an item whose slug is not the slug of
any field definition of the template is never converted: an error and no Secret is
returned, whatever precedes or follows the item. The error is the
unrecognized-field-name error for that slug when every item before it converts,
and in every case it is the error of the first item of the list that fails, an
item at or before the one with the unknown slug. -/
theorem unknown_slug_rejected (resourceSecret : ResourceData) (template : SecretTemplate)
    (id : Int) (pre post : List ResourceItem) (item : ResourceItem) (slug : GoString)
    (hitems : resourceSecret.item = pre ++ item :: post)
    (hslug : item.field = some slug)
    (hunknown : ∀ d ∈ template.Fields, d.FieldSlugName ≠ slug) :
    (∃ e, resourceSecretToModel resourceSecret template id = .error e) ∧
    ((∀ p ∈ pre, ∃ f, convertItem resourceSecret.name template p = .ok f) →
      resourceSecretToModel resourceSecret template id =
        .error (.unrecognizedFieldName resourceSecret.name (some slug))) ∧
    (∃ (first : List ResourceItem) (failing : ResourceItem) (rest : List ResourceItem)
        (e : ConvError),
      resourceSecret.item = first ++ failing :: rest ∧ first.length ≤ pre.length ∧
      (∀ p ∈ first, ∃ f, convertItem resourceSecret.name template p = .ok f) ∧
      convertItem resourceSecret.name template failing = .error e ∧
      resourceSecretToModel resourceSecret template id = .error e) := by
  have hitem : convertItem resourceSecret.name template item =
      .error (.unrecognizedFieldName resourceSecret.name (some slug)) := by
    unfold convertItem
    rw [hslug]
    simp only [getField_eq_none.2 hunknown]
  obtain ⟨⟨e1, he1⟩, h2⟩ := convertItems_error hitem post pre
  obtain ⟨first, failing, rest, e, hsplit, hlen, hfirst, hfail, herr⟩ :=
    convertItems_first_failure hitem post pre
  rw [← hitems] at he1 h2 hsplit herr
  exact ⟨⟨e1, resourceSecretToModel_error he1⟩,
    fun hall => resourceSecretToModel_error (h2 hall),
    first, failing, rest, e, hsplit, hlen, hfirst, hfail, resourceSecretToModel_error herr⟩

/-- Witness of C4: `doesnotexist` after a valid item and before a valueless one is
reported as an unknown slug; after a valueless item, the first failing item is the
valueless one and its missing-value error is returned. -/
theorem unknown_slug_rejected_witness :
    resourceSecretToModel { name := str "s", item := [passwordItem, unknownItem, valuelessItem] }
      exampleTemplate 7 = .error (.unrecognizedFieldName (str "s") (some (str "doesnotexist"))) ∧
    ∃ (first : List ResourceItem) (failing : ResourceItem) (rest : List ResourceItem)
        (e : ConvError),
      [valuelessItem, unknownItem] = first ++ failing :: rest ∧ first.length ≤ 1 ∧
      convertItem (str "s") exampleTemplate failing = .error e ∧
      resourceSecretToModel { name := str "s", item := [valuelessItem, unknownItem] }
        exampleTemplate 7 = .error e :=
  ⟨(unknown_slug_rejected { name := str "s", item := [passwordItem, unknownItem, valuelessItem] }
      exampleTemplate 7 [passwordItem] [valuelessItem] unknownItem (str "doesnotexist") rfl rfl
      (by decide)).2.1 (by
        intro p hp
        rw [List.mem_singleton] at hp
        subst hp
        exact ⟨_, rfl⟩),
   match (unknown_slug_rejected { name := str "s", item := [valuelessItem, unknownItem] }
      exampleTemplate 7 [valuelessItem] [] unknownItem (str "doesnotexist") rfl rfl
      (by decide)).2.2 with
   | ⟨first, failing, rest, e, h1, h2, _, h4, h5⟩ => ⟨first, failing, rest, e, h1, h2, h4, h5⟩⟩

/-- C10, as stated, fails: a list that contains an item with a valid slug and no
value after an item with an unknown slug is rejected with the
unrecognized-field-name error of the earlier item, not with the missing-value
error. -/
theorem missing_value_error_kind_counterexample :
    (∃ item ∈ [unknownItem, valuelessItem], ∃ slug tf, item.field = some slug ∧
        exampleTemplate.GetField slug = some tf ∧ item.value = none) ∧
      resourceSecretToModel { name := str "s", item := [unknownItem, valuelessItem] }
        exampleTemplate 0 =
          .error (.unrecognizedFieldName (str "s") (some (str "doesnotexist"))) ∧
      resourceSecretToModel { name := str "s", item := [unknownItem, valuelessItem] }
        exampleTemplate 0 ≠ .error (.missingValue (str "s")) := by
  refine ⟨⟨valuelessItem, by simp, str "username", _, rfl, rfl, rfl⟩, rfl, ?_⟩
  have h : resourceSecretToModel { name := str "s", item := [unknownItem, valuelessItem] }
      exampleTemplate 0 =
        .error (.unrecognizedFieldName (str "s") (some (str "doesnotexist"))) := rfl
  rw [h]
  simp

/-- C10, amended: a configuration that contains an item with a valid slug and no
value is never converted: an error and no Secret is returned, whatever the item's
encoding flag and filename are and whether or not the field is a file. The error
is the missing-value error when every item before it converts, and in every case
it is the error of the first item of the list that fails, an item at or before
the one without a value. -/
theorem missing_value_rejected (resourceSecret : ResourceData) (template : SecretTemplate)
    (id : Int) (pre post : List ResourceItem) (item : ResourceItem) (slug : GoString)
    (tf : SecretTemplateField)
    (hitems : resourceSecret.item = pre ++ item :: post)
    (hslug : item.field = some slug)
    (hvalid : template.GetField slug = some tf)
    (hvalue : item.value = none) :
    (∃ e, resourceSecretToModel resourceSecret template id = .error e) ∧
    ((∀ p ∈ pre, ∃ f, convertItem resourceSecret.name template p = .ok f) →
      resourceSecretToModel resourceSecret template id =
        .error (.missingValue resourceSecret.name)) ∧
    (∃ (first : List ResourceItem) (failing : ResourceItem) (rest : List ResourceItem)
        (e : ConvError),
      resourceSecret.item = first ++ failing :: rest ∧ first.length ≤ pre.length ∧
      (∀ p ∈ first, ∃ f, convertItem resourceSecret.name template p = .ok f) ∧
      convertItem resourceSecret.name template failing = .error e ∧
      resourceSecretToModel resourceSecret template id = .error e) := by
  have hitem : convertItem resourceSecret.name template item =
      .error (.missingValue resourceSecret.name) := by
    unfold convertItem
    rw [hslug]
    simp only [hvalid, hvalue]
  obtain ⟨⟨e1, he1⟩, h2⟩ := convertItems_error hitem post pre
  obtain ⟨first, failing, rest, e, hsplit, hlen, hfirst, hfail, herr⟩ :=
    convertItems_first_failure hitem post pre
  rw [← hitems] at he1 h2 hsplit herr
  exact ⟨⟨e1, resourceSecretToModel_error he1⟩,
    fun hall => resourceSecretToModel_error (h2 hall),
    first, failing, rest, e, hsplit, hlen, hfirst, hfail, resourceSecretToModel_error herr⟩

/-- Witness of C10: a valueless file item, flagged as encoded and with a filename,
after a valid item is reported as a missing value; after an item with an unknown
slug, the first failing item is that one and its error is returned. -/
theorem missing_value_rejected_witness :
    resourceSecretToModel
      { name := str "s",
        item := [passwordItem, { field := some (str "privatekey"), file_encoded := some true,
                                 filename := some (str "id_rsa") }] }
      exampleTemplate 7 = .error (.missingValue (str "s")) ∧
    ∃ (first : List ResourceItem) (failing : ResourceItem) (rest : List ResourceItem)
        (e : ConvError),
      [unknownItem, valuelessItem] = first ++ failing :: rest ∧ first.length ≤ 1 ∧
      convertItem (str "s") exampleTemplate failing = .error e ∧
      resourceSecretToModel { name := str "s", item := [unknownItem, valuelessItem] }
        exampleTemplate 7 = .error e :=
  ⟨(missing_value_rejected
      { name := str "s",
        item := [passwordItem, { field := some (str "privatekey"), file_encoded := some true,
                                 filename := some (str "id_rsa") }] }
      exampleTemplate 7 [passwordItem] []
      { field := some (str "privatekey"), file_encoded := some true,
        filename := some (str "id_rsa") }
      (str "privatekey") _ rfl rfl rfl rfl).2.1 (by
        intro p hp
        rw [List.mem_singleton] at hp
        subst hp
        exact ⟨_, rfl⟩),
   match (missing_value_rejected { name := str "s", item := [unknownItem, valuelessItem] }
      exampleTemplate 7 [unknownItem] [] valuelessItem (str "username") _ rfl rfl rfl rfl).2.2 with
   | ⟨first, failing, rest, e, h1, h2, _, h4, h5⟩ => ⟨first, failing, rest, e, h1, h2, h4, h5⟩⟩

theorem convertItems_map_field {secretName : GoString} {template : SecretTemplate} :
    ∀ {items : List ResourceItem} {cs : List SecretField},
      convertItems secretName template items = .ok cs →
        items.map (·.field) = cs.map (fun c => some c.Slug) := by
  intro items
  induction items with
  | nil => intro cs h; simp [convertItems] at h; simp [← h]
  | cons item rest ih =>
    intro cs h
    obtain ⟨f, fs, rfl, hf, hr⟩ := convertItems_ok_cons h
    obtain ⟨slug, tf, hslug, _, _, hfeq⟩ := convertItem_ok hf
    have : f.Slug = slug := by rw [hfeq]
    simp [ih hr, hslug, this]

theorem convertItems_mem_right {secretName : GoString} {template : SecretTemplate} :
    ∀ {items : List ResourceItem} {cs : List SecretField},
      convertItems secretName template items = .ok cs →
        ∀ c ∈ cs, ∃ item ∈ items, convertItem secretName template item = .ok c := by
  intro items
  induction items with
  | nil => intro cs h; simp [convertItems] at h; subst h; simp
  | cons item rest ih =>
    intro cs h c hc
    obtain ⟨f, fs, rfl, hf, hr⟩ := convertItems_ok_cons h
    rcases List.mem_cons.1 hc with rfl | hc
    · exact ⟨item, List.mem_cons_self _ _, hf⟩
    · obtain ⟨i, hi, hic⟩ := ih hr c hc
      exact ⟨i, List.mem_cons_of_mem _ hi, hic⟩

theorem convertItems_mem_left {secretName : GoString} {template : SecretTemplate} :
    ∀ {items : List ResourceItem} {cs : List SecretField},
      convertItems secretName template items = .ok cs →
        ∀ item ∈ items, ∃ c ∈ cs, convertItem secretName template item = .ok c := by
  intro items
  induction items with
  | nil => intro cs _ item hitem; simp at hitem
  | cons item rest ih =>
    intro cs h i hi
    obtain ⟨f, fs, rfl, hf, hr⟩ := convertItems_ok_cons h
    rcases List.mem_cons.1 hi with rfl | hi
    · exact ⟨f, List.mem_cons_self _ _, hf⟩
    · obtain ⟨c, hc, hic⟩ := ih hr i hi
      exact ⟨c, List.mem_cons_of_mem _ hc, hic⟩

theorem convertItems_getElem {secretName : GoString} {template : SecretTemplate}
    {item : ResourceItem} {post : List ResourceItem} :
    ∀ {pre : List ResourceItem} {cs : List SecretField},
      convertItems secretName template (pre ++ item :: post) = .ok cs →
        ∃ f, cs[pre.length]? = some f ∧ convertItem secretName template item = .ok f := by
  intro pre
  induction pre with
  | nil =>
    intro cs h
    obtain ⟨f, fs, rfl, hf, _⟩ := convertItems_ok_cons h
    exact ⟨f, by simp, hf⟩
  | cons p pre ih =>
    intro cs h
    obtain ⟨f, fs, rfl, _, hr⟩ := convertItems_ok_cons h
    obtain ⟨g, hg, hgi⟩ := ih hr
    exact ⟨g, by simpa using hg, hgi⟩

/-- C9: an item with a value whose slug resolves to a template field is transferred
as follows. When the field is a file and the item is flagged as encoded, a raw
value that is not decodable makes the whole conversion fail, and otherwise the
emitted field (at the item's position) carries the base64 decoding of the raw
value. In every other case (field not a file, flag false or absent) the emitted
field carries the raw value verbatim, decodable or not. -/
theorem value_transfer (resourceSecret : ResourceData) (template : SecretTemplate) (id : Int)
    (pre post : List ResourceItem) (item : ResourceItem) (slug : GoString)
    (tf : SecretTemplateField) (resourceValue : GoString)
    (hitems : resourceSecret.item = pre ++ item :: post)
    (hslug : item.field = some slug)
    (hresolved : template.GetField slug = some tf)
    (hvalue : item.value = some resourceValue) :
    (tf.IsFile = true → item.file_encoded = some true → decodeString resourceValue = none →
      ∃ e, resourceSecretToModel resourceSecret template id = .error e) ∧
    (∀ secret, resourceSecretToModel resourceSecret template id = .ok secret →
      ∃ fields f, secret.Fields = some fields ∧ fields[pre.length]? = some f ∧ f.Slug = slug ∧
        if tf.IsFile = true ∧ item.file_encoded = some true then
          decodeString resourceValue = some f.ItemValue
        else f.ItemValue = resourceValue) := by
  constructor
  · intro hfile henc hbad
    have hitem : convertItem resourceSecret.name template item = .error .corruptInput := by
      unfold convertItem
      rw [hslug]
      simp only [hresolved, hvalue, hfile, henc, hbad]
      simp
    obtain ⟨⟨e1, he1⟩, _⟩ := convertItems_error hitem post pre
    rw [← hitems] at he1
    exact ⟨e1, resourceSecretToModel_error he1⟩
  · intro secret hok
    obtain ⟨cs, hcs, hfields⟩ := resourceSecretToModel_ok hok
    rw [hitems] at hcs
    obtain ⟨f, hf, hconv⟩ := convertItems_getElem hcs
    have hlen : pre.length < cs.length := by
      rw [convertItems_ok_length hcs]; simp
    obtain ⟨slug1, tf1, hslug1, htf1, hval, hfeq⟩ := convertItem_ok hconv
    rw [hslug] at hslug1
    cases hslug1
    rw [hresolved] at htf1
    cases htf1
    refine ⟨_, f, hfields, ?_, by rw [hfeq], ?_⟩
    · rw [List.getElem?_append_left hlen]; exact hf
    · unfold transferredValue at hval
      rw [hvalue] at hval
      by_cases hc : tf.IsFile = true ∧ item.file_encoded = some true
      · simp only [hc, and_self, if_true]
        simpa [hc.1, hc.2] using hval
      · simp only [hc, if_false]
        have : (tf.IsFile && item.file_encoded == some true) = false := by
          rcases Bool.eq_false_or_eq_true tf.IsFile with h1 | h1
          · have : item.file_encoded ≠ some true := fun h2 => hc ⟨h1, h2⟩
            simp [h1, this]
          · simp [h1]
        rw [this] at hval
        simpa using hval.symm

/-- Witness of C9: the encoded file item `privatekey` with value `aGVsbG8=`, after a
text item, is emitted at position 1 with the decoded value `hello`. -/
theorem value_transfer_witness :
    ∃ secret fields f,
      resourceSecretToModel { name := str "s", item := [passwordItem, privatekeyItem] }
        exampleTemplate 7 = .ok secret ∧
      secret.Fields = some fields ∧ fields[1]? = some f ∧ f.ItemValue = str "hello" := by
  obtain ⟨fields, f, h1, h2, _, h4⟩ :=
    (value_transfer { name := str "s", item := [passwordItem, privatekeyItem] } exampleTemplate 7
      [passwordItem] [] privatekeyItem (str "privatekey")
      { SecretTemplateFieldID := 103, FieldSlugName := str "privatekey", IsFile := true }
      (str "aGVsbG8=") rfl rfl rfl rfl).2 _ rfl
  refine ⟨_, fields, f, rfl, h1, h2, ?_⟩
  have hd : decodeString (str "aGVsbG8=") = some (str "hello") := by decide
  have hcond : (true = true ∧ privatekeyItem.file_encoded = some true) := ⟨rfl, rfl⟩
  rw [if_pos hcond, hd] at h4
  exact (Option.some.inj h4).symm

/-! ### Completeness of the outbound collection (C1) -/

theorem convertItem_ok_slug {secretName : GoString} {template : SecretTemplate}
    {item : ResourceItem} {f : SecretField}
    (h : convertItem secretName template item = .ok f) :
    item.field = some f.Slug ∧ ∃ tf ∈ template.Fields, tf.FieldSlugName = f.Slug ∧
      template.GetField f.Slug = some tf ∧
      f.FieldID = tf.SecretTemplateFieldID ∧ transferredValue tf item = some f.ItemValue := by
  obtain ⟨slug, tf, hslug, htf, hval, hfeq⟩ := convertItem_ok h
  have h1 : f.Slug = slug := by rw [hfeq]
  have h2 : f.FieldID = tf.SecretTemplateFieldID := by rw [hfeq]
  obtain ⟨hmem, hs⟩ := getField_some htf
  rw [h1]
  exact ⟨hslug, tf, hmem, hs, htf, h2, hval⟩

theorem map_slug_clearedField (l : List SecretTemplateField) :
    (l.map clearedField).map (·.Slug) = l.map (·.FieldSlugName) := by
  induction l with
  | nil => rfl
  | cons a l ih => simp [clearedField]

theorem filter_length_one_of_nodup_map {α β : Type} [DecidableEq β] (f : α → β) :
    ∀ {l : List α} {b : β}, (l.map f).Nodup → b ∈ l.map f →
      (l.filter (fun x => decide (f x = b))).length = 1 := by
  intro l
  induction l with
  | nil => intro b _ hb; simp at hb
  | cons a l ih =>
    intro b hnodup hb
    rw [List.map_cons, List.nodup_cons] at hnodup
    by_cases hab : f a = b
    · have hnone : l.filter (fun x => decide (f x = b)) = [] := by
        rw [List.filter_eq_nil_iff]
        intro x hx
        simp only [decide_eq_true_eq]
        intro hxb
        exact hnodup.1 (List.mem_map.2 ⟨x, hx, by rw [hxb, hab]⟩)
      simp [List.filter_cons, hab, hnone]
    · have hb2 : b ∈ l.map f := by
        rcases List.mem_cons.1 hb with h | h
        · exact absurd h.symm hab
        · exact h
      simp [List.filter_cons, hab, ih hnodup.2 hb2]

/-- C1: when the template's slugs are pairwise distinct, the items' slugs are
pairwise distinct and the conversion succeeds (so every item names a field of the
template and converts without error), the returned field collection has exactly as
many fields as the template has definitions, every definition's slug occurs exactly
once in it, and the field with that slug carries the definition's field id and
either the value transferred from the item that names the slug or, when no item
names it, the empty string; no other slug occurs. -/
theorem outbound_complete (resourceSecret : ResourceData) (template : SecretTemplate) (id : Int)
    (secret : Secret)
    (htemplate : (template.Fields.map (·.FieldSlugName)).Nodup)
    (hitems : (resourceSecret.item.map (·.field)).Nodup)
    (hok : resourceSecretToModel resourceSecret template id = .ok secret) :
    ∃ fields, secret.Fields = some fields ∧ fields.length = template.Fields.length ∧
      (∀ d ∈ template.Fields,
        (fields.filter (fun f => decide (f.Slug = d.FieldSlugName))).length = 1 ∧
        ∃ f ∈ fields, f.Slug = d.FieldSlugName ∧ f.FieldID = d.SecretTemplateFieldID ∧
          ((∃ item ∈ resourceSecret.item, item.field = some d.FieldSlugName ∧
              transferredValue d item = some f.ItemValue) ∨
           ((∀ item ∈ resourceSecret.item, item.field ≠ some d.FieldSlugName) ∧
              f.ItemValue = []))) ∧
      (∀ f ∈ fields, f.Slug ∈ template.Fields.map (·.FieldSlugName)) := by
  obtain ⟨cs, hcs, hfields⟩ := resourceSecretToModel_ok hok
  -- the slugs of the converted items
  have hSnodup : (cs.map (·.Slug)).Nodup := by
    have h := convertItems_map_field hcs
    rw [h] at hitems
    have h2 : cs.map (fun c => some c.Slug) = (cs.map (·.Slug)).map some := by simp
    rw [h2] at hitems
    exact List.Nodup.of_map _ hitems
  have hSsub : ∀ s ∈ cs.map (·.Slug), s ∈ template.Fields.map (·.FieldSlugName) := by
    intro s hs
    obtain ⟨c, hc, rfl⟩ := List.mem_map.1 hs
    obtain ⟨item, _, hconv⟩ := convertItems_mem_right hcs c hc
    obtain ⟨_, tf, htf, htfs, _⟩ := convertItem_ok_slug hconv
    exact List.mem_map.2 ⟨tf, htf, htfs⟩
  -- the slugs of the whole collection
  have hslugs : (cs ++ (template.Fields.filter
      (fun tf => decide (tf.FieldSlugName ∉ cs.map (·.Slug)))).map clearedField).map (·.Slug) =
      cs.map (·.Slug) ++ (template.Fields.map (·.FieldSlugName)).filter
        (fun s => decide (s ∉ cs.map (·.Slug))) := by
    rw [List.map_append, map_slug_clearedField, List.filter_map]
    rfl
  have hnodup : ((cs ++ (template.Fields.filter
      (fun tf => decide (tf.FieldSlugName ∉ cs.map (·.Slug)))).map clearedField).map
        (·.Slug)).Nodup := by
    rw [hslugs]
    refine List.Nodup.append hSnodup (htemplate.filter _) ?_
    intro s hs hs2
    have := (List.mem_filter.1 hs2).2
    simp only [decide_eq_true_eq] at this
    exact this hs
  -- the number of fields
  have hlen : (template.Fields.filter
      (fun tf => decide (tf.FieldSlugName ∈ cs.map (·.Slug)))).length = cs.length := by
    have hperm : ((template.Fields.map (·.FieldSlugName)).filter
        (fun s => decide (s ∈ cs.map (·.Slug)))).Perm (cs.map (·.Slug)) := by
      rw [List.perm_ext_iff_of_nodup (htemplate.filter _) hSnodup]
      intro s
      rw [List.mem_filter]
      simp only [decide_eq_true_eq]
      exact ⟨fun h => h.2, fun h => ⟨hSsub s h, h⟩⟩
    have h := hperm.length_eq
    rw [List.filter_map, List.length_map, List.length_map] at h
    exact h
  have hsplit := @List.length_eq_length_filter_add _ template.Fields
    (fun tf => decide (tf.FieldSlugName ∈ cs.map (·.Slug)))
  have hneg : (template.Fields.filter
      (fun tf => !decide (tf.FieldSlugName ∈ cs.map (·.Slug)))) =
      template.Fields.filter (fun tf => decide (tf.FieldSlugName ∉ cs.map (·.Slug))) := by
    congr 1
    funext tf
    by_cases h : tf.FieldSlugName ∈ cs.map (·.Slug)
    · rw [decide_eq_true h, decide_eq_false (not_not.2 h)]; rfl
    · rw [decide_eq_false h, decide_eq_true h]; rfl
  rw [hneg, hlen] at hsplit
  refine ⟨_, hfields, ?_, ?_, ?_⟩
  · rw [List.length_append, List.length_map]
    exact hsplit.symm
  · intro d hd
    by_cases hin : d.FieldSlugName ∈ cs.map (·.Slug)
    · refine ⟨filter_length_one_of_nodup_map (fun f : SecretField => f.Slug) hnodup ?_, ?_⟩
      · rw [hslugs]; exact List.mem_append_left _ hin
      · obtain ⟨c, hc, hcslug⟩ := List.mem_map.1 hin
        obtain ⟨item, hitem, hconv⟩ := convertItems_mem_right hcs c hc
        obtain ⟨hfield, tf, htf, htfs, _, hid, hval⟩ := convertItem_ok_slug hconv
        have hcslug2 : c.Slug = d.FieldSlugName := hcslug
        have htfd : tf = d :=
          List.inj_on_of_nodup_map htemplate htf hd (by rw [htfs, hcslug2])
        subst htfd
        refine ⟨c, List.mem_append_left _ hc, hcslug, hid, Or.inl ⟨item, hitem, ?_, hval⟩⟩
        rw [hfield, hcslug2]
    · refine ⟨filter_length_one_of_nodup_map (fun f : SecretField => f.Slug) hnodup ?_, ?_⟩
      · rw [hslugs]
        exact List.mem_append_right _
          (List.mem_filter.2 ⟨List.mem_map.2 ⟨d, hd, rfl⟩, by simpa using hin⟩)
      · refine ⟨clearedField d, List.mem_append_right _ (List.mem_map.2 ⟨d, ?_, rfl⟩), rfl, rfl,
          Or.inr ⟨?_, rfl⟩⟩
        · exact List.mem_filter.2 ⟨hd, by simpa using hin⟩
        · intro item hitem hfield
          obtain ⟨c, hc, hconv⟩ := convertItems_mem_left hcs item hitem
          obtain ⟨hfield2, _⟩ := convertItem_ok_slug hconv
          rw [hfield] at hfield2
          exact hin (List.mem_map.2 ⟨c, hc, (Option.some.inj hfield2).symm⟩)
  · intro f hf
    have hmem : f.Slug ∈ (cs ++ (template.Fields.filter
        (fun tf => decide (tf.FieldSlugName ∉ cs.map (·.Slug)))).map clearedField).map
          (·.Slug) := List.mem_map.2 ⟨f, hf, rfl⟩
    rw [hslugs] at hmem
    rcases List.mem_append.1 hmem with h | h
    · exact hSsub _ h
    · exact (List.mem_filter.1 h).1

/-- Witness of C1: two of the three fields of the example template are configured;
the collection has three fields. -/
theorem outbound_complete_witness :
    ∃ secret fields,
      resourceSecretToModel { name := str "s", item := [privatekeyItem, passwordItem] }
        exampleTemplate 7 = .ok secret ∧
      secret.Fields = some fields ∧ fields.length = 3 ∧
      fields.map (·.Slug) = [str "privatekey", str "password", str "username"] := by
  obtain ⟨fields, h1, h2, _, _⟩ :=
    outbound_complete { name := str "s", item := [privatekeyItem, passwordItem] }
      exampleTemplate 7 _ (by decide) (by decide) rfl
  refine ⟨_, fields, rfl, h1, h2, ?_⟩
  have := Option.some.inj h1
  rw [← this]
  decide

/-! ### The loops of the inbound conversion -/

theorem getLast?_getD_cons {α : Type} (g : α) (rest : List α) (a b : α) :
    (g :: rest).getLast?.getD a = (g :: rest).getLast?.getD b := by
  rw [List.getLast?_eq_getLast _ (List.cons_ne_nil _ _)]
  rfl

/-- The inner loop leaves in `field` the first field with the item's slug, and
otherwise the last field of the collection (the initial value when it is empty). -/
theorem scanFields_some (slug : GoString) :
    ∀ (fields : List SecretField) (current : SecretField),
      scanFields (some slug) fields current =
        match fields.find? (fun f => decide (f.Slug = slug)) with
        | some f => (f, true)
        | none => (fields.getLast?.getD current, false) := by
  intro fields
  induction fields with
  | nil => intro current; rfl
  | cons f rest ih =>
    intro current
    unfold scanFields
    by_cases h : f.Slug = slug
    · simp [h]
    · have h2 : ¬ (some f.Slug = some slug) := fun h3 => h (Option.some.inj h3)
      rw [if_neg h2, ih, List.find?_cons_of_neg _ (by simpa using h)]
      cases hfind : rest.find? (fun f => decide (f.Slug = slug)) with
      | some g => rfl
      | none =>
        cases rest with
        | nil => rfl
        | cons g rest2 =>
          rw [List.getLast?_cons_cons]
          simp only [Prod.mk.injEq, and_true]
          exact getLast?_getD_cons g rest2 f current

theorem scanFields_none :
    ∀ (fields : List SecretField) (current : SecretField),
      scanFields none fields current = (fields.getLast?.getD current, false) := by
  intro fields
  induction fields with
  | nil => intro current; rfl
  | cons f rest ih =>
    intro current
    unfold scanFields
    rw [if_neg (by simp), ih]
    cases rest with
    | nil => rfl
    | cons g rest2 =>
      rw [List.getLast?_cons_cons]
      simp only [Prod.mk.injEq, and_true]
      exact getLast?_getD_cons g rest2 f current

theorem priorLoop_eq (modelName : GoString) (modelFields : List SecretField)
    (items : List ResourceItem) :
    ∀ mapped : List GoString,
      priorLoop modelName modelFields items mapped =
        .ok (items.map (storeItem modelFields),
             (matchedSlugs modelFields items).reverse ++ mapped) := by
  induction items with
  | nil => intro mapped; simp [priorLoop, matchedSlugs]
  | cons item rest ih =>
    intro mapped
    unfold priorLoop
    simp only [addressIsNil, Bool.false_eq_true, if_false, ih, matchedSlugs, List.map_cons]
    by_cases h : (scanFields item.field modelFields {}).2 = true
    · simp [h, storeItem]
    · simp [h, storeItem]

theorem surfaceLoop_eq (mapped : List GoString) (modelFields : List SecretField) :
    ∀ items : List ResourceItem,
      surfaceLoop modelFields mapped items =
        items ++ (modelFields.filter (fun f => decide (f.Slug ∉ mapped) && hasValue f)).map
          (fun f => mapModelFieldToResourceSecretItem f {}) := by
  induction modelFields with
  | nil => intro items; simp [surfaceLoop]
  | cons f rest ih =>
    intro items
    unfold surfaceLoop
    by_cases h : f.Slug ∈ mapped
    · simp [h, ih]
    · by_cases hv : hasValue f = true
      · simp [h, hv, ih]
      · simp [h, hv, ih]

/-- The stored item list: the prior items, each overwritten from the field the inner
loop left, followed by the unmapped fields that have a value. The conversion of the
item list never fails. -/
theorem storedItems_eq (modelName : GoString) (modelFields : List SecretField)
    (items : List ResourceItem) :
    storedItems modelName (some modelFields) items =
      .ok (items.map (storeItem modelFields) ++
        (modelFields.filter
          (fun f => decide (f.Slug ∉ matchedSlugs modelFields items) && hasValue f)).map
          (fun f => mapModelFieldToResourceSecretItem f {})) := by
  unfold storedItems
  simp only [priorLoop_eq, surfaceLoop_eq, List.append_nil, List.mem_reverse]

theorem modelToResourceSecret_item {model : Secret} {resourceSecret resourceSecret1 : ResourceData}
    {items : List ResourceItem}
    (hitems : storedItems model.Name model.Fields resourceSecret.item = .ok items)
    (h : modelToResourceSecret model resourceSecret = .ok resourceSecret1) :
    resourceSecret1.item = items := by
  unfold modelToResourceSecret at h
  rw [hitems] at h
  simp only [Except.ok.injEq] at h
  rw [← h]

theorem modelToResourceSecret_isOk (model : Secret) (resourceSecret : ResourceData)
    {items : List ResourceItem}
    (hitems : storedItems model.Name model.Fields resourceSecret.item = .ok items) :
    ∃ resourceSecret1, modelToResourceSecret model resourceSecret = .ok resourceSecret1 ∧
      resourceSecret1.item = items := by
  unfold modelToResourceSecret
  rw [hitems]
  exact ⟨_, rfl, rfl⟩

/-! ### Order of the stored items (C2) and the stale prior item (C3) -/

theorem scanFields_of_mem {slug : GoString} {fields : List SecretField}
    (h : slug ∈ fields.map (·.Slug)) (current : SecretField) :
    ∃ g, scanFields (some slug) fields current = (g, true) ∧ g ∈ fields ∧ g.Slug = slug := by
  rw [scanFields_some]
  cases hfind : fields.find? (fun f => decide (f.Slug = slug)) with
  | some g =>
    refine ⟨g, rfl, List.mem_of_find?_eq_some hfind, ?_⟩
    simpa using List.find?_some hfind
  | none =>
    exfalso
    obtain ⟨f, hf, hfs⟩ := List.mem_map.1 h
    have := List.find?_eq_none.1 hfind f hf
    simp at this
    exact this hfs

theorem storeItem_field (fields : List SecretField) (item : ResourceItem) :
    (storeItem fields item).field = some (scanFields item.field fields {}).1.Slug := by
  unfold storeItem
  simp only
  split <;> rfl

theorem mem_matchedSlugs {fields : List SecretField} {x : GoString} :
    ∀ {items : List ResourceItem},
      x ∈ matchedSlugs fields items ↔
        ∃ item ∈ items, (scanFields item.field fields {}).2 = true ∧
          (scanFields item.field fields {}).1.Slug = x := by
  intro items
  induction items with
  | nil => simp [matchedSlugs]
  | cons item rest ih =>
    simp only [matchedSlugs]
    by_cases h : (scanFields item.field fields {}).2 = true
    · rw [if_pos h, List.mem_cons, ih]
      constructor
      · rintro (rfl | ⟨i, hi, h1, h2⟩)
        · exact ⟨item, List.mem_cons_self _ _, h, rfl⟩
        · exact ⟨i, List.mem_cons_of_mem _ hi, h1, h2⟩
      · rintro ⟨i, hi, h1, h2⟩
        rcases List.mem_cons.1 hi with rfl | hi
        · exact Or.inl h2.symm
        · exact Or.inr ⟨i, hi, h1, h2⟩
    · rw [if_neg h, ih]
      constructor
      · rintro ⟨i, hi, h1, h2⟩
        exact ⟨i, List.mem_cons_of_mem _ hi, h1, h2⟩
      · rintro ⟨i, hi, h1, h2⟩
        rcases List.mem_cons.1 hi with rfl | hi
        · exact absurd h1 h
        · exact ⟨i, hi, h1, h2⟩

/-- C2: when the server's field collection is not nil and every prior item's slug
occurs in it, the inbound conversion succeeds and the slugs of the stored items are
the slugs of the prior items, in their order, followed by the slugs of exactly those
server fields, in server order, whose slug is not in the prior list and that have
an observable value (a non-empty filename for a file field, a non-empty value for
any other field). -/
theorem inbound_order (model : Secret) (resourceSecret : ResourceData)
    (fields : List SecretField)
    (hfields : model.Fields = some fields)
    (hprior : ∀ item ∈ resourceSecret.item,
      ∃ slug, item.field = some slug ∧ slug ∈ fields.map (·.Slug)) :
    ∃ resourceSecret1, modelToResourceSecret model resourceSecret = .ok resourceSecret1 ∧
      resourceSecret1.item.map (·.field) =
        resourceSecret.item.map (·.field) ++
          (fields.filter (fun f =>
            decide (some f.Slug ∉ resourceSecret.item.map (·.field) ∧
              if f.IsFile = true then f.Filename ≠ [] else f.ItemValue ≠ []))).map
            (fun f => some f.Slug) := by
  have hstored := storedItems_eq model.Name fields resourceSecret.item
  rw [← hfields] at hstored
  obtain ⟨rd1, hrd1, hitem⟩ := modelToResourceSecret_isOk model resourceSecret hstored
  refine ⟨rd1, hrd1, ?_⟩
  rw [hitem, List.map_append, List.map_map, List.map_map]
  congr 1
  · apply List.map_congr_left
    intro item hitem
    obtain ⟨slug, hslug, hmem⟩ := hprior item hitem
    obtain ⟨g, hg, _, hgs⟩ := scanFields_of_mem hmem {}
    simp only [Function.comp_apply, storeItem_field, hslug, hg, hgs]
  · have hfilter : fields.filter
        (fun f => decide (f.Slug ∉ matchedSlugs fields resourceSecret.item) && hasValue f) =
        fields.filter (fun f =>
          decide (some f.Slug ∉ resourceSecret.item.map (·.field) ∧
            if f.IsFile = true then f.Filename ≠ [] else f.ItemValue ≠ [])) := by
      apply List.filter_congr
      intro f _
      have hm : f.Slug ∈ matchedSlugs fields resourceSecret.item ↔
          some f.Slug ∈ resourceSecret.item.map (·.field) := by
        rw [mem_matchedSlugs, List.mem_map]
        constructor
        · rintro ⟨item, hitem, _, h2⟩
          obtain ⟨slug, hslug, hmem⟩ := hprior item hitem
          obtain ⟨g, hg, _, hgs⟩ := scanFields_of_mem hmem {}
          rw [hslug, hg] at h2
          refine ⟨item, hitem, ?_⟩
          rw [hslug, ← h2, ← hgs]
        · rintro ⟨item, hitem, hfield⟩
          obtain ⟨slug, hslug, hmem⟩ := hprior item hitem
          obtain ⟨g, hg, _, hgs⟩ := scanFields_of_mem hmem {}
          refine ⟨item, hitem, ?_, ?_⟩
          · rw [hslug, hg]
          · rw [hslug, hg]
            rw [hslug] at hfield
            rw [hgs]
            exact Option.some.inj hfield
      have hv : hasValue f = decide (if f.IsFile = true then f.Filename ≠ [] else f.ItemValue ≠ []) := by
        unfold hasValue
        cases f.IsFile <;> simp
      rw [hv]
      by_cases h1 : f.Slug ∈ matchedSlugs fields resourceSecret.item
      · have h2 := hm.1 h1
        simp [h1, h2]
      · have h2 : some f.Slug ∉ resourceSecret.item.map (·.field) := fun h => h1 (hm.2 h)
        simp only [h1, not_false_eq_true, decide_True, Bool.true_and, h2, true_and]
    rw [hfilter]
    apply List.map_congr_left
    intro f _
    rfl

/-- Witness of C2: prior `[c, a, b]`, server fields `a, b, e, c, d` with `d` valued
and `e` empty, gives `[c, a, b, d]`. -/
theorem inbound_order_witness :
    ∃ resourceSecret1,
      modelToResourceSecret
        { Fields := some [textField "a" "1", textField "b" "2", textField "e" "",
                          textField "c" "3", textField "d" "4"] }
        { item := [priorItem "c", priorItem "a", priorItem "b"] } = .ok resourceSecret1 ∧
      resourceSecret1.item.map (·.field) =
        [some (str "c"), some (str "a"), some (str "b"), some (str "d")] := by
  obtain ⟨rd1, h1, h2⟩ := inbound_order
    { Fields := some [textField "a" "1", textField "b" "2", textField "e" "",
                      textField "c" "3", textField "d" "4"] }
    { item := [priorItem "c", priorItem "a", priorItem "b"] }
    [textField "a" "1", textField "b" "2", textField "e" "", textField "c" "3", textField "d" "4"]
    rfl (by decide)
  refine ⟨rd1, h1, ?_⟩
  rw [h2]
  decide

/-- C3 fails on the code: the prior item `gone` matches no field of the server's
(non-nil) collection `[a]`, and the conversion returns no error: the test
`&field == nil` never holds, the stale item is overwritten from the last server
field, and that field is stored a second time as a new item. -/
theorem stale_prior_item_not_rejected :
    ∃ resourceSecret1,
      modelToResourceSecret { Fields := some [textField "a" "x"] }
        { item := [{ field := some (str "gone"), value := some (str "v") }] } =
          .ok resourceSecret1 ∧
      resourceSecret1.item.map (fun item => (item.field, item.value)) =
        [(some (str "a"), some (str "x")), (some (str "a"), some (str "x"))] :=
  ⟨_, rfl, by decide⟩

/-! ### Stability of the stored items (C8) -/

theorem scanFields_self {fields : List SecretField} (hnodup : (fields.map (·.Slug)).Nodup)
    {g : SecretField} (hg : g ∈ fields) (current : SecretField) :
    scanFields (some g.Slug) fields current = (g, true) := by
  rw [scanFields_some]
  have hfind : fields.find? (fun f => decide (f.Slug = g.Slug)) = some g := by
    induction fields with
    | nil => simp at hg
    | cons f rest ih =>
      by_cases hfg : f.Slug = g.Slug
      · have : f = g :=
          List.inj_on_of_nodup_map hnodup (List.mem_cons_self _ _) hg hfg
        subst this
        simp
      · rw [List.find?_cons_of_neg _ (by simpa using hfg)]
        rcases List.mem_cons.1 hg with h | h
        · exact absurd (by rw [h]) hfg
        · rw [List.map_cons, List.nodup_cons] at hnodup
          exact ih hnodup.2 h
  rw [hfind]

theorem scanFields_fst_mem (target : Option GoString) :
    ∀ (fields : List SecretField) (current : SecretField), fields ≠ [] →
      (scanFields target fields current).1 ∈ fields := by
  intro fields
  induction fields with
  | nil => intro _ h; exact absurd rfl h
  | cons f rest ih =>
    intro current _
    unfold scanFields
    by_cases h : some f.Slug = target
    · rw [if_pos h]; exact List.mem_cons_self _ _
    · rw [if_neg h]
      cases rest with
      | nil => simp [scanFields]
      | cons g rest2 => exact List.mem_cons_of_mem _ (ih f (List.cons_ne_nil _ _))

/-- The field the inner loop leaves for an item is the one it leaves when the item
names that field's slug (the collection having distinct slugs). -/
theorem scanFields_again {fields : List SecretField} (hnodup : (fields.map (·.Slug)).Nodup)
    (target : Option GoString) :
    (scanFields (some (scanFields target fields {}).1.Slug) fields {}).1 =
      (scanFields target fields {}).1 := by
  cases fields with
  | nil => rfl
  | cons f rest =>
    rw [scanFields_self hnodup (scanFields_fst_mem target _ _ (List.cons_ne_nil _ _))]

/-- An item that was written from the field the inner loop leaves for it is stored
unchanged. -/
theorem storeItem_eq_self {fields : List SecretField} {x base : ResourceItem} {g : SecretField}
    (hscan : (scanFields x.field fields {}).1 = g)
    (hshape : x = if g.IsFile && base.file_encoded == some true then
        { mapModelFieldToResourceSecretItem g base with value := some (encodeToString g.ItemValue) }
      else mapModelFieldToResourceSecretItem g base) :
    storeItem fields x = x := by
  unfold storeItem
  simp only [hscan]
  by_cases hc : (g.IsFile && base.file_encoded == some true) = true
  · rw [if_pos hc] at hshape
    subst hshape
    simp only [mapModelFieldToResourceSecretItem, hc, if_true, Option.map_some']
  · rw [if_neg hc] at hshape
    subst hshape
    simp only [mapModelFieldToResourceSecretItem, hc]
    simp

theorem storeItem_shape (fields : List SecretField) (item : ResourceItem) :
    storeItem fields item =
      if (scanFields item.field fields {}).1.IsFile && item.file_encoded == some true then
        { mapModelFieldToResourceSecretItem (scanFields item.field fields {}).1 item with
          value := some (encodeToString (scanFields item.field fields {}).1.ItemValue) }
      else mapModelFieldToResourceSecretItem (scanFields item.field fields {}).1 item := rfl

/-- With distinct server slugs, the item list a conversion stores is stored again
unchanged by a conversion that takes it as the prior list. -/
theorem storedItems_stable (modelName : GoString) (fields : List SecretField)
    (hnodup : (fields.map (·.Slug)).Nodup) (items stored : List ResourceItem)
    (h : storedItems modelName (some fields) items = .ok stored) :
    storedItems modelName (some fields) stored = .ok stored := by
  rw [storedItems_eq] at h
  simp only [Except.ok.injEq] at h
  rw [storedItems_eq]
  -- every stored item is a fixed point of the prior loop
  have hfix : ∀ x ∈ stored, storeItem fields x = x := by
    intro x hx
    rw [← h] at hx
    rcases List.mem_append.1 hx with hx | hx
    · obtain ⟨item, _, rfl⟩ := List.mem_map.1 hx
      refine storeItem_eq_self ?_ (storeItem_shape fields item)
      rw [storeItem_field]
      exact scanFields_again hnodup item.field
    · obtain ⟨f, hf, rfl⟩ := List.mem_map.1 hx
      have hfm : f ∈ fields := (List.mem_filter.1 hf).1
      refine @storeItem_eq_self fields _ {} f ?_ ?_
      · show (scanFields (some f.Slug) fields {}).1 = f
        rw [scanFields_self hnodup hfm]
      · simp
  -- every field with a value is mapped by the stored items
  have hmapped : ∀ f ∈ fields, hasValue f = true → f.Slug ∈ matchedSlugs fields stored := by
    intro f hf hv
    have key : ∀ x ∈ stored, x.field = some f.Slug → f.Slug ∈ matchedSlugs fields stored := by
      intro x hx hxf
      obtain ⟨g, hg, _, hgs⟩ :=
        scanFields_of_mem (List.mem_map.2 ⟨f, hf, rfl⟩ : f.Slug ∈ fields.map (·.Slug)) {}
      exact mem_matchedSlugs.2 ⟨x, hx, by rw [hxf, hg], by rw [hxf, hg, hgs]⟩
    by_cases hm : f.Slug ∈ matchedSlugs fields items
    · obtain ⟨item, hitem, _, h2⟩ := mem_matchedSlugs.1 hm
      refine key (storeItem fields item) ?_ ?_
      · rw [← h]; exact List.mem_append_left _ (List.mem_map.2 ⟨item, hitem, rfl⟩)
      · rw [storeItem_field, h2]
    · refine key (mapModelFieldToResourceSecretItem f {}) ?_ rfl
      rw [← h]
      refine List.mem_append_right _ (List.mem_map.2 ⟨f, List.mem_filter.2 ⟨hf, ?_⟩, rfl⟩)
      simp [hm, hv]
  have hnone : fields.filter
      (fun f => decide (f.Slug ∉ matchedSlugs fields stored) && hasValue f) = [] := by
    rw [List.filter_eq_nil_iff]
    intro f hf
    by_cases hv : hasValue f = true
    · simp [hmapped f hf hv]
    · simp [hv]
  rw [hnone, List.map_nil, List.append_nil]
  congr 1
  conv_rhs => rw [← List.map_id stored]
  exact List.map_congr_left (fun x hx => hfix x hx)

/-- C8: for a server Secret whose field slugs are pairwise distinct, the resource data
an inbound conversion produces is reproduced exactly by a second inbound conversion
that starts from it with the same Secret: the same items, in the same order, with
every attribute unchanged. -/
theorem inbound_stable (model : Secret) (resourceSecret resourceSecret1 : ResourceData)
    (hdistinct : ∀ fields, model.Fields = some fields → (fields.map (·.Slug)).Nodup)
    (h : modelToResourceSecret model resourceSecret = .ok resourceSecret1) :
    modelToResourceSecret model resourceSecret1 = .ok resourceSecret1 := by
  unfold modelToResourceSecret at h
  cases hs : storedItems model.Name model.Fields resourceSecret.item with
  | error e => rw [hs] at h; simp at h
  | ok stored =>
    rw [hs] at h
    simp only [Except.ok.injEq] at h
    have hstable : storedItems model.Name model.Fields stored = .ok stored := by
      cases hf : model.Fields with
      | none =>
        rw [hf] at hs
        simp only [storedItems, Except.ok.injEq] at hs
        rw [← hs]
        rfl
      | some fields =>
        rw [hf] at hs
        exact storedItems_stable model.Name fields (hdistinct fields hf) _ _ hs
    have hitem : resourceSecret1.item = stored := by rw [← h]
    unfold modelToResourceSecret
    rw [hitem, hstable, ← h]

/-- Witness of C8: the stale prior item `gone` and the unmapped field `b`. -/
theorem inbound_stable_witness :
    ∃ resourceSecret1,
      modelToResourceSecret { Fields := some [textField "b" "2", textField "a" "1"] }
        { item := [priorItem "gone", priorItem "a"] } = .ok resourceSecret1 ∧
      resourceSecret1.item.map (·.field) = [some (str "a"), some (str "a"), some (str "b")] ∧
      modelToResourceSecret { Fields := some [textField "b" "2", textField "a" "1"] }
        resourceSecret1 = .ok resourceSecret1 :=
  ⟨_, rfl, by decide,
    inbound_stable { Fields := some [textField "b" "2", textField "a" "1"] }
      { item := [priorItem "gone", priorItem "a"] } _
      (by intro fields hf; cases hf; decide) rfl⟩

/-! ### Round trips (C5, C6) -/

theorem find?_slug_self {fields : List SecretField} (hnodup : (fields.map (·.Slug)).Nodup)
    {g : SecretField} (hg : g ∈ fields) :
    fields.find? (fun f => decide (f.Slug = g.Slug)) = some g := by
  have h := scanFields_self hnodup hg {}
  rw [scanFields_some] at h
  cases hfind : fields.find? (fun f => decide (f.Slug = g.Slug)) with
  | some f => rw [hfind] at h; simp only [Prod.mk.injEq, and_true] at h; rw [h]
  | none => rw [hfind] at h; simp at h

theorem scanFields_of_find {slug : GoString} {fields : List SecretField} {g : SecretField}
    (h : fields.find? (fun f => decide (f.Slug = slug)) = some g) (current : SecretField) :
    scanFields (some slug) fields current = (g, true) := by
  rw [scanFields_some, h]

/-- C6: for every byte string `p`, an item whose value is the base64 encoding of `p`,
flagged as encoded and bound to a file field of the template, is converted outbound
to a field whose value is `p`; and the inbound conversion of a server collection in
which the field returned for that slug is a file with value `p`, against the same
prior item, stores the original base64 string as the item's value. -/
theorem file_encoding_round_trip (p : GoString) (resourceSecret : ResourceData)
    (template : SecretTemplate) (id : Int) (item : ResourceItem) (slug : GoString)
    (tf : SecretTemplateField)
    (hitems : resourceSecret.item = [item])
    (hslug : item.field = some slug)
    (hvalue : item.value = some (encodeToString p))
    (hencoded : item.file_encoded = some true)
    (hresolved : template.GetField slug = some tf)
    (hfile : tf.IsFile = true) :
    (∃ secret f rest, resourceSecretToModel resourceSecret template id = .ok secret ∧
      secret.Fields = some (f :: rest) ∧ f.Slug = slug ∧ f.ItemValue = p) ∧
    (∀ (model : Secret) (fields : List SecretField) (returned : SecretField),
      model.Fields = some fields →
      fields.find? (fun f => decide (f.Slug = slug)) = some returned →
      returned.IsFile = true → returned.ItemValue = p →
      ∃ resourceSecret1 stored rest,
        modelToResourceSecret model resourceSecret = .ok resourceSecret1 ∧
        resourceSecret1.item = stored :: rest ∧ stored.field = some slug ∧
        stored.value = some (encodeToString p) ∧ stored.value = item.value) := by
  constructor
  · have hconv : convertItem resourceSecret.name template item =
        .ok { Slug := slug, FieldID := tf.SecretTemplateFieldID, ItemValue := p,
              Filename := item.filename.getD (str "File.txt") } := by
      unfold convertItem
      rw [hslug]
      simp only [hresolved, hvalue, hfile, hencoded, decodeString_encodeToString]
      cases item.filename <;> rfl
    have hcs : convertItems resourceSecret.name template resourceSecret.item =
        .ok [{ Slug := slug, FieldID := tf.SecretTemplateFieldID, ItemValue := p,
               Filename := item.filename.getD (str "File.txt") }] := by
      rw [hitems]
      simp only [convertItems, hconv]
    obtain ⟨secret, hsecret⟩ := resourceSecretToModel_isOk id hcs
    obtain ⟨cs, hcs2, hfields⟩ := resourceSecretToModel_ok hsecret
    rw [hcs] at hcs2
    simp only [Except.ok.injEq] at hcs2
    subst hcs2
    exact ⟨secret, _, _, hsecret, hfields, rfl, rfl⟩
  · intro model fields returned hfields hfind hisfile hval
    have hstored := storedItems_eq model.Name fields resourceSecret.item
    rw [← hfields] at hstored
    obtain ⟨rd1, hrd1, hitem⟩ := modelToResourceSecret_isOk model resourceSecret hstored
    rw [hitems, List.map_cons, List.map_nil, List.singleton_append] at hitem
    refine ⟨rd1, storeItem fields item, _, hrd1, hitem, ?_, ?_, ?_⟩
    · rw [storeItem_field, hslug, scanFields_of_find hfind]
      have := List.find?_some hfind
      simp only [decide_eq_true_eq] at this
      rw [this]
    · rw [storeItem_shape, hslug, scanFields_of_find hfind]
      simp [hisfile, hencoded, hval]
    · rw [storeItem_shape, hslug, scanFields_of_find hfind]
      simp [hisfile, hencoded, hval, hvalue]

/-- Witness of C6: `p = hello`, slug `privatekey`: the outbound value is `hello` and
the value stored inbound is `aGVsbG8=` again. -/
theorem file_encoding_round_trip_witness :
    (∃ secret f rest,
      resourceSecretToModel { name := str "s", item := [privatekeyItem] } exampleTemplate 7 =
        .ok secret ∧
      secret.Fields = some (f :: rest) ∧ f.Slug = str "privatekey" ∧ f.ItemValue = str "hello") ∧
    (∃ resourceSecret1 stored rest,
      modelToResourceSecret
        { Fields := some [textField "username" "",
                          { Slug := str "privatekey", IsFile := true, ItemValue := str "hello",
                            Filename := str "File.txt", FieldID := 103 }] }
        { name := str "s", item := [privatekeyItem] } = .ok resourceSecret1 ∧
      resourceSecret1.item = stored :: rest ∧ stored.field = some (str "privatekey") ∧
      stored.value = some (str "aGVsbG8=")) := by
  have h := file_encoding_round_trip (str "hello") { name := str "s", item := [privatekeyItem] }
    exampleTemplate 7 privatekeyItem (str "privatekey")
    { SecretTemplateFieldID := 103, FieldSlugName := str "privatekey", IsFile := true }
    rfl rfl (by decide) rfl rfl rfl
  refine ⟨h.1, ?_⟩
  obtain ⟨rd1, stored, rest, h1, h2, h3, _, h5⟩ := h.2
    { Fields := some [textField "username" "",
                      { Slug := str "privatekey", IsFile := true, ItemValue := str "hello",
                        Filename := str "File.txt", FieldID := 103 }] }
    _ { Slug := str "privatekey", IsFile := true, ItemValue := str "hello",
        Filename := str "File.txt", FieldID := 103 } rfl (by decide) rfl rfl
  exact ⟨rd1, stored, rest, h1, h2, h3, h5⟩

theorem standInField_slug (template : SecretTemplate) (f : SecretField) :
    (standInField template f).Slug = f.Slug := rfl

theorem map_slug_standInField (template : SecretTemplate) (l : List SecretField) :
    (l.map (standInField template)).map (·.Slug) = l.map (·.Slug) := by
  rw [List.map_map]
  rfl

theorem hasValue_standIn_cleared (template : SecretTemplate) (d : SecretTemplateField) :
    hasValue (standInField template (clearedField d)) = false := by
  unfold hasValue
  split <;> simp [standInField, clearedField]

/-- The field the stand-in server's collection holds for a converted item is found
by the inner loop of the inbound conversion. -/
theorem scanFields_standIn {template : SecretTemplate} {cs : List SecretField}
    (hnodup : (cs.map (·.Slug)).Nodup) {c : SecretField} (hc : c ∈ cs)
    (rest : List SecretField) :
    scanFields (some c.Slug) (cs.map (standInField template) ++ rest) {} =
      (standInField template c, true) := by
  apply scanFields_of_find
  rw [List.find?_append]
  have h := @find?_slug_self (cs.map (standInField template))
    (by rw [map_slug_standInField]; exact hnodup) (standInField template c)
    (List.mem_map.2 ⟨c, hc, rfl⟩)
  rw [standInField_slug] at h
  rw [h]
  rfl

/-- C5, as stated, fails: the text item `username` without a filename comes back
with the filename `File.txt`, and the encoded file item `privatekey` with the
filename `id_rsa` and the decodable, non-canonical value `aGVsbG9=` comes back with
the value `aGVsbG8=`. -/
theorem round_trip_not_identical_counterexample :
    ∃ secret resourceSecret1,
      resourceSecretToModel
        { name := str "s",
          item := [{ field := some (str "username"), value := some (str "admin") },
                   { field := some (str "privatekey"), value := some (str "aGVsbG9="),
                     filename := some (str "id_rsa"), file_encoded := some true }] }
        exampleTemplate 7 = .ok secret ∧
      modelToResourceSecret (standInServer exampleTemplate secret)
        { name := str "s",
          item := [{ field := some (str "username"), value := some (str "admin") },
                   { field := some (str "privatekey"), value := some (str "aGVsbG9="),
                     filename := some (str "id_rsa"), file_encoded := some true }] } =
        .ok resourceSecret1 ∧
      resourceSecret1.item.map (fun item => (item.field, item.value, item.filename)) =
        [(some (str "username"), some (str "admin"), some (str "File.txt")),
         (some (str "privatekey"), some (str "aGVsbG8="), some (str "id_rsa"))] ∧
      resourceSecret1.item.map (·.filename) ≠ [none, some (str "id_rsa")] ∧
      resourceSecret1.item.map (·.value) ≠ [some (str "admin"), some (str "aGVsbG9=")] :=
  ⟨_, _, rfl, rfl, by decide, by decide, by decide⟩

/-- C5, amended: for every item list with distinct slugs that the outbound conversion
accepts, the inbound conversion of the stand-in server's answer with the same list
as the prior list succeeds and stores a list of the same length that has, at every
position, the slug and the encoding flag of the input item; the filename of the
input item when it has one and `File.txt` when it has none; and the value of the
input item, except that the value of an encoded file item is the base64 encoding of
its decoding, which is the input value whenever that is the encoding of a byte
string. -/
theorem round_trip (resourceSecret : ResourceData) (template : SecretTemplate) (id : Int)
    (secret : Secret)
    (hitems : (resourceSecret.item.map (·.field)).Nodup)
    (hok : resourceSecretToModel resourceSecret template id = .ok secret) :
    ∃ resourceSecret1,
      modelToResourceSecret (standInServer template secret) resourceSecret = .ok resourceSecret1 ∧
      resourceSecret1.item.length = resourceSecret.item.length ∧
      ∀ (i : Nat) (item : ResourceItem), resourceSecret.item[i]? = some item →
        ∃ item1 slug tf value, resourceSecret1.item[i]? = some item1 ∧
          item.field = some slug ∧ template.GetField slug = some tf ∧ item.value = some value ∧
          item1.field = item.field ∧
          item1.file_encoded = item.file_encoded ∧
          item1.filename = some (item.filename.getD (str "File.txt")) ∧
          (item.filename ≠ none → item1.filename = item.filename) ∧
          item1.value = (if tf.IsFile = true ∧ item.file_encoded = some true then
            (decodeString value).map encodeToString else some value) ∧
          ((tf.IsFile = true ∧ item.file_encoded = some true → ∃ p, value = encodeToString p) →
            item1.value = item.value) := by
  obtain ⟨cs, hcs, hfields⟩ := resourceSecretToModel_ok hok
  have hSnodup : (cs.map (·.Slug)).Nodup := by
    have h := convertItems_map_field hcs
    rw [h] at hitems
    have h2 : cs.map (fun c => some c.Slug) = (cs.map (·.Slug)).map some := by simp
    rw [h2] at hitems
    exact List.Nodup.of_map _ hitems
  -- the collection the stand-in server returns
  obtain ⟨served, hserved⟩ : ∃ served : List SecretField, served =
      cs.map (standInField template) ++
        ((template.Fields.filter (fun tf => decide (tf.FieldSlugName ∉ cs.map (·.Slug)))).map
          clearedField).map (standInField template) := ⟨_, rfl⟩
  have hserver : (standInServer template secret).Fields = some served := by
    simp only [standInServer, hfields, Option.map_some', List.map_append, hserved]
  have hstored := storedItems_eq (standInServer template secret).Name served resourceSecret.item
  rw [← hserver] at hstored
  obtain ⟨rd1, hrd1, hitem⟩ :=
    modelToResourceSecret_isOk (standInServer template secret) resourceSecret hstored
  -- the inner loop finds the field of every item
  have hscan : ∀ item c, convertItem resourceSecret.name template item = .ok c → c ∈ cs →
      scanFields item.field served {} = (standInField template c, true) := by
    intro item c hconv hc
    rw [(convertItem_ok_slug hconv).1, hserved]
    exact scanFields_standIn hSnodup hc _
  -- no field is surfaced
  have hnone : served.filter
      (fun f => decide (f.Slug ∉ matchedSlugs served resourceSecret.item) && hasValue f) = [] := by
    rw [List.filter_eq_nil_iff]
    intro f hf
    rw [hserved] at hf
    rcases List.mem_append.1 hf with hf | hf
    · obtain ⟨c, hc, rfl⟩ := List.mem_map.1 hf
      obtain ⟨item, hitemmem, hconv⟩ := convertItems_mem_right hcs c hc
      have hm : (standInField template c).Slug ∈ matchedSlugs served resourceSecret.item :=
        mem_matchedSlugs.2 ⟨item, hitemmem, by rw [hscan item c hconv hc],
          by rw [hscan item c hconv hc]⟩
      simp [hm]
    · obtain ⟨g, hg, rfl⟩ := List.mem_map.1 hf
      obtain ⟨d, _, rfl⟩ := List.mem_map.1 hg
      simp [hasValue_standIn_cleared]
  rw [hnone, List.map_nil, List.append_nil] at hitem
  refine ⟨rd1, hrd1, by rw [hitem, List.length_map], ?_⟩
  intro i item hi
  have hmem : item ∈ resourceSecret.item := List.getElem?_mem hi
  obtain ⟨c, hc, hconv⟩ := convertItems_mem_left hcs item hmem
  obtain ⟨slug, tf, hslug, htf, hval, hceq⟩ := convertItem_ok hconv
  have hcslug : c.Slug = slug := by rw [hceq]
  have hcfile : c.Filename = item.filename.getD (str "File.txt") := by rw [hceq]
  have hisfile : (standInField template c).IsFile = tf.IsFile := by
    simp only [standInField, hcslug, htf]
  cases hv : item.value with
  | none => simp [transferredValue, hv] at hval
  | some value =>
    have hshape := storeItem_shape served item
    rw [hscan item c hconv hc] at hshape
    simp only [hisfile] at hshape
    have hvalue1 : (storeItem served item).value =
        (if tf.IsFile = true ∧ item.file_encoded = some true then
          (decodeString value).map encodeToString else some value) := by
      unfold transferredValue at hval
      rw [hv] at hval
      by_cases hcond : tf.IsFile = true ∧ item.file_encoded = some true
      · have hb : (tf.IsFile && item.file_encoded == some true) = true := by
          simp [hcond.1, hcond.2]
        rw [hb] at hval hshape
        simp only [if_true] at hval hshape
        rw [hshape, if_pos hcond, hval]
        rfl
      · have hb : (tf.IsFile && item.file_encoded == some true) = false := by
          rcases Bool.eq_false_or_eq_true tf.IsFile with h1 | h1
          · have : item.file_encoded ≠ some true := fun h2 => hcond ⟨h1, h2⟩
            simp [h1, this]
          · simp [h1]
        rw [hb] at hval hshape
        simp only [Bool.false_eq_true, if_false] at hval hshape
        rw [hshape, if_neg hcond, hval]
        rfl
    have hfilename1 : (storeItem served item).filename =
        some (item.filename.getD (str "File.txt")) := by
      rw [hshape, ← hcfile]
      split <;> rfl
    refine ⟨_, slug, tf, value, by rw [hitem, List.getElem?_map, hi]; rfl, hslug, htf, rfl,
      ?_, ?_, hfilename1, ?_, hvalue1, ?_⟩
    · rw [storeItem_field, hscan item c hconv hc, hslug, ← hcslug]
      rfl
    · rw [hshape]
      split <;> rfl
    · intro hne
      rw [hfilename1]
      cases hfn : item.filename with
      | none => exact absurd hfn hne
      | some fn => rfl
    · intro hcanon
      rw [hvalue1]
      by_cases hcond : tf.IsFile = true ∧ item.file_encoded = some true
      · obtain ⟨p, hp⟩ := hcanon hcond
        rw [if_pos hcond, hp, decodeString_encodeToString]
        rfl
      · rw [if_neg hcond]

/-- Witness of C5: a text item and an encoded file item; the file item comes back at
position 1 with its slug, its value `aGVsbG8=` and its encoding flag. -/
theorem round_trip_witness :
    ∃ secret resourceSecret1 item1,
      resourceSecretToModel { name := str "s", item := [passwordItem, privatekeyItem] }
        exampleTemplate 7 = .ok secret ∧
      modelToResourceSecret (standInServer exampleTemplate secret)
        { name := str "s", item := [passwordItem, privatekeyItem] } = .ok resourceSecret1 ∧
      resourceSecret1.item.length = 2 ∧
      resourceSecret1.item[1]? = some item1 ∧
      item1.field = some (str "privatekey") ∧ item1.value = some (str "aGVsbG8=") ∧
      item1.file_encoded = some true := by
  obtain ⟨rd1, h1, h2, h3⟩ :=
    round_trip { name := str "s", item := [passwordItem, privatekeyItem] } exampleTemplate 7 _
      (by decide) rfl
  obtain ⟨item1, slug, tf, value, hget, _, _, hvalue, hfield, henc, _, _, _, hcanon⟩ :=
    h3 1 privatekeyItem rfl
  refine ⟨_, rd1, item1, rfl, h1, h2, hget, hfield, ?_, henc⟩
  have hv : value = str "aGVsbG8=" := (Option.some.inj hvalue).symm
  exact hcanon (fun _ => ⟨str "hello", by rw [hv]; decide⟩)

/-! ### The decision table of `DiffSuppressFunc` (C7) -/

theorem stripLiteral_eq_some {literal s rest : GoString} :
    stripLiteral literal s = some rest ↔ s = literal ++ rest := by
  induction literal generalizing s with
  | nil => simp [stripLiteral, eq_comm]
  | cons p ps ih =>
    cases s with
    | nil => simp [stripLiteral]
    | cons c cs =>
      simp only [stripLiteral, List.cons_append, List.cons.injEq]
      by_cases h : p = c
      · simp [h, ih]
      · rw [if_neg h]
        constructor
        · intro h2; cases h2
        · rintro ⟨h2, _⟩; exact absurd h2.symm h

theorem isDigit_iff (c : Fin 256) : isDigit c = true ↔ 48 ≤ c.val ∧ c.val ≤ 57 := by
  simp [isDigit]

/-- The matcher of `^item\.\d+\.field$` accepts exactly the keys
`item.<decimal index>.field`. -/
theorem matchItemField_iff (key : GoString) : matchItemField key = true ↔ IsItemFieldKey key := by
  unfold matchItemField IsItemFieldKey
  constructor
  · intro h
    cases hs : stripLiteral (str "item.") key with
    | none => rw [hs] at h; simp at h
    | some rest =>
      rw [hs] at h
      simp only [Bool.and_eq_true, decide_eq_true_eq] at h
      refine ⟨rest.takeWhile isDigit, h.1, ?_, ?_⟩
      · intro d hd
        exact (isDigit_iff d).1 (List.mem_takeWhile_imp hd)
      · rw [stripLiteral_eq_some.1 hs, List.append_assoc, ← h.2,
          List.takeWhile_append_dropWhile]
  · rintro ⟨index, hne, hdigits, rfl⟩
    have hs : stripLiteral (str "item.") (str "item." ++ index ++ str ".field") =
        some (index ++ str ".field") := by
      rw [stripLiteral_eq_some, List.append_assoc]
    have hall : ∀ a ∈ index, isDigit a = true := fun a ha => (isDigit_iff a).2 (hdigits a ha)
    rw [hs]
    simp only [List.takeWhile_append_of_pos hall, List.dropWhile_append_of_pos hall]
    have h1 : (str ".field").takeWhile isDigit = [] := by decide
    have h2 : (str ".field").dropWhile isDigit = str ".field" := by decide
    rw [h1, h2, List.append_nil]
    simp [hne]

/-- C7: the predicate returns `true` exactly when `old` and `new` are identical, or
the directive is active and either the key is `item.<decimal index>.field` and `new`
is empty, or the key is `item.#` and `old` and `new` both parse as integers with
`new < old`; in every other case it returns `false`. The four rows of the table
named by the specification follow. -/
theorem diffSuppress_decision_table :
    (∀ (key old new : GoString) (resourceSecret : ResourceData),
      DiffSuppressFunc key old new resourceSecret = true ↔
        old = new ∨
        ((resourceSecret.generate_ssh_keys = true ∨ resourceSecret.generate_ssh_passphrase = true) ∧
          ((IsItemFieldKey key ∧ new = []) ∨
           (key = str "item.#" ∧
            ∃ numOldItems numNewItems : Int, atoi old = some numOldItems ∧
              atoi new = some numNewItems ∧ numNewItems < numOldItems)))) ∧
    DiffSuppressFunc (str "item.2.field") (str "publickey") (str "")
      { generate_ssh_keys := true } = true ∧
    DiffSuppressFunc (str "item.2.field") (str "publickey") (str "")
      { generate_ssh_keys := false } = false ∧
    DiffSuppressFunc (str "item.#") (str "5") (str "3") { generate_ssh_keys := true } = true ∧
    DiffSuppressFunc (str "item.#") (str "5") (str "6") { generate_ssh_keys := true } = false := by
  refine ⟨?_, by decide, by decide, by decide, by decide⟩
  intro key old new resourceSecret
  unfold DiffSuppressFunc
  by_cases heq : old = new
  · simp [heq]
  · rw [if_neg heq]
    by_cases hdir : (resourceSecret.generate_ssh_keys || resourceSecret.generate_ssh_passphrase) = true
    · rw [if_pos hdir]
      have hdir2 : resourceSecret.generate_ssh_keys = true ∨
          resourceSecret.generate_ssh_passphrase = true := by simpa using hdir
      by_cases hfield : (matchItemField key && decide (new = [])) = true
      · rw [if_pos hfield]
        simp only [Bool.and_eq_true, decide_eq_true_eq, matchItemField_iff] at hfield
        simp [hdir2, hfield]
      · rw [if_neg hfield]
        have hfield2 : ¬ (IsItemFieldKey key ∧ new = []) := by
          simpa only [Bool.and_eq_true, decide_eq_true_eq, matchItemField_iff] using hfield
        by_cases hcount : key = str "item.#"
        · rw [if_pos hcount]
          subst hcount
          cases ho : atoi old with
          | none => simp [heq, hfield2]
          | some numOld =>
            cases hn : atoi new with
            | none => simp [heq, hfield2]
            | some numNew => simp [heq, hfield2, hdir2]
        · rw [if_neg hcount]
          simp [heq, hfield2, hcount]
    · rw [if_neg hdir]
      have hdir2 : ¬ (resourceSecret.generate_ssh_keys = true ∨
          resourceSecret.generate_ssh_passphrase = true) := by simpa using hdir
      simp [heq, hdir2]

/-! ### Filename defaulting (C11) and the shape of the outbound collection (C13) -/

theorem convertItems_getElem? {secretName : GoString} {template : SecretTemplate} :
    ∀ {items : List ResourceItem} {cs : List SecretField},
      convertItems secretName template items = .ok cs →
        ∀ (i : Nat) (item : ResourceItem), items[i]? = some item →
          ∃ c, cs[i]? = some c ∧ convertItem secretName template item = .ok c := by
  intro items
  induction items with
  | nil => intro cs _ i item hi; simp at hi
  | cons first rest ih =>
    intro cs h i item hi
    obtain ⟨f, fs, rfl, hf, hr⟩ := convertItems_ok_cons h
    cases i with
    | zero =>
      simp only [List.getElem?_cons_zero, Option.some.injEq] at hi
      subst hi
      exact ⟨f, by simp, hf⟩
    | succ j =>
      simp only [List.getElem?_cons_succ] at hi
      obtain ⟨c, hc, hconv⟩ := ih hr j item hi
      exact ⟨c, by simpa using hc, hconv⟩

/-- C11, as stated, fails: the item `password` has no filename and its template field
is not a file, and the field emitted for it carries the placeholder `File.txt`. -/
theorem filename_placeholder_non_file_counterexample :
    ∃ secret fields f tf,
      resourceSecretToModel { name := str "s", item := [passwordItem] } exampleTemplate 7 =
        .ok secret ∧
      secret.Fields = some fields ∧ fields[0]? = some f ∧
      passwordItem.filename = none ∧
      exampleTemplate.GetField (str "password") = some tf ∧ tf.IsFile = false ∧
      f.Slug = str "password" ∧ f.Filename = str "File.txt" :=
  ⟨_, _, _, _, rfl, rfl, rfl, rfl, rfl, rfl, rfl, rfl⟩

/-- C11, amended: for every successfully converted item, the emitted field (at the
item's position) carries the item's filename unchanged when it is set, and the
placeholder `File.txt` when it is unset, whether or not the resolved template field
is a file. -/
theorem filename_transfer (resourceSecret : ResourceData) (template : SecretTemplate) (id : Int)
    (secret : Secret) (pre post : List ResourceItem) (item : ResourceItem)
    (hitems : resourceSecret.item = pre ++ item :: post)
    (hok : resourceSecretToModel resourceSecret template id = .ok secret) :
    ∃ fields f, secret.Fields = some fields ∧ fields[pre.length]? = some f ∧
      item.field = some f.Slug ∧
      (∀ resourceFilename, item.filename = some resourceFilename →
        f.Filename = resourceFilename) ∧
      (item.filename = none → f.Filename = str "File.txt") := by
  obtain ⟨cs, hcs, hfields⟩ := resourceSecretToModel_ok hok
  rw [hitems] at hcs
  obtain ⟨f, hf, hconv⟩ := convertItems_getElem hcs
  have hlen : pre.length < cs.length := by
    rw [convertItems_ok_length hcs]; simp
  obtain ⟨slug, tf, hslug, _, _, hfeq⟩ := convertItem_ok hconv
  have hfn : f.Filename = item.filename.getD (str "File.txt") := by rw [hfeq]
  have hfs : f.Slug = slug := by rw [hfeq]
  refine ⟨_, f, hfields, ?_, by rw [hfs]; exact hslug, ?_, ?_⟩
  · rw [List.getElem?_append_left hlen]; exact hf
  · intro fn h
    rw [hfn, h]; rfl
  · intro h
    rw [hfn, h]; rfl

/-- Witness of C11: a text item without a filename and a file item with the filename
`id_rsa`; the file item's field, at position 1, carries `id_rsa`. -/
theorem filename_transfer_witness :
    ∃ secret fields f,
      resourceSecretToModel
        { name := str "s",
          item := [passwordItem,
                   { field := some (str "privatekey"), value := some (str "key"),
                     filename := some (str "id_rsa") }] }
        exampleTemplate 7 = .ok secret ∧
      secret.Fields = some fields ∧ fields[1]? = some f ∧ f.Filename = str "id_rsa" := by
  obtain ⟨fields, f, h1, h2, _, h4, _⟩ :=
    filename_transfer
      { name := str "s",
        item := [passwordItem,
                 { field := some (str "privatekey"), value := some (str "key"),
                   filename := some (str "id_rsa") }] }
      exampleTemplate 7 _ [passwordItem] []
      { field := some (str "privatekey"), value := some (str "key"),
        filename := some (str "id_rsa") } rfl rfl
  exact ⟨_, fields, f, rfl, h1, h2, h4 _ rfl⟩

/-- C13: the field collection of a successful conversion is one field per item, in
configuration order, each with the item's slug and the field id of the template
definition resolved for that slug, followed by one field for every template
definition whose slug no item names, in template order, each with that
definition's slug and field id and the empty string as value; every emitted field
carries the field id of a template definition with its slug. -/
theorem outbound_shape (resourceSecret : ResourceData) (template : SecretTemplate) (id : Int)
    (secret : Secret)
    (hok : resourceSecretToModel resourceSecret template id = .ok secret) :
    ∃ converted : List SecretField,
      secret.Fields = some (converted ++
        (template.Fields.filter
          (fun d => decide (some d.FieldSlugName ∉ resourceSecret.item.map (·.field)))).map
          (fun d => { Slug := d.FieldSlugName, FieldID := d.SecretTemplateFieldID,
                      ItemValue := [] })) ∧
      converted.length = resourceSecret.item.length ∧
      (∀ (i : Nat) (item : ResourceItem), resourceSecret.item[i]? = some item →
        ∃ f tf, converted[i]? = some f ∧ item.field = some f.Slug ∧
          template.GetField f.Slug = some tf ∧ f.FieldID = tf.SecretTemplateFieldID) ∧
      (∀ fields, secret.Fields = some fields → ∀ f ∈ fields,
        ∃ d ∈ template.Fields, d.FieldSlugName = f.Slug ∧ d.SecretTemplateFieldID = f.FieldID) := by
  obtain ⟨cs, hcs, hfields⟩ := resourceSecretToModel_ok hok
  have hfilter : template.Fields.filter
      (fun tf => decide (tf.FieldSlugName ∉ cs.map (·.Slug))) =
      template.Fields.filter
        (fun d => decide (some d.FieldSlugName ∉ resourceSecret.item.map (·.field))) := by
    apply List.filter_congr
    intro d _
    rw [convertItems_map_field hcs]
    have : d.FieldSlugName ∈ cs.map (·.Slug) ↔
        some d.FieldSlugName ∈ cs.map (fun c => some c.Slug) := by
      simp only [List.mem_map, Option.some.injEq]
    exact decide_eq_decide.2 (not_congr this)
  have hfields2 : secret.Fields = some (cs ++
      (template.Fields.filter
        (fun d => decide (some d.FieldSlugName ∉ resourceSecret.item.map (·.field)))).map
        (fun d => { Slug := d.FieldSlugName, FieldID := d.SecretTemplateFieldID,
                    ItemValue := [] })) := by
    rw [hfields, hfilter]
    rfl
  refine ⟨cs, hfields2, convertItems_ok_length hcs, ?_, ?_⟩
  · intro i item hi
    obtain ⟨c, hc, hconv⟩ := convertItems_getElem? hcs i item hi
    obtain ⟨hfield, tf, _, _, htf, hid, _⟩ := convertItem_ok_slug hconv
    exact ⟨c, tf, hc, hfield, htf, hid⟩
  · intro fields hf f hmem
    rw [hfields2] at hf
    rw [← Option.some.inj hf] at hmem
    rcases List.mem_append.1 hmem with h | h
    · obtain ⟨item, _, hconv⟩ := convertItems_mem_right hcs f h
      obtain ⟨_, tf, htfmem, htfs, _, hid, _⟩ := convertItem_ok_slug hconv
      exact ⟨tf, htfmem, htfs, hid.symm⟩
    · obtain ⟨d, hd, rfl⟩ := List.mem_map.1 h
      exact ⟨d, (List.mem_filter.1 hd).1, rfl, rfl⟩

/-- Witness of C13: `privatekey` and `password` configured, in that order; the
collection is their two fields followed by the cleared field `username`. -/
theorem outbound_shape_witness :
    ∃ secret converted,
      resourceSecretToModel { name := str "s", item := [privatekeyItem, passwordItem] }
        exampleTemplate 7 = .ok secret ∧
      secret.Fields = some (converted ++
        [{ Slug := str "username", FieldID := 101, ItemValue := [] }]) ∧
      converted.length = 2 := by
  obtain ⟨cs, h1, h2, _, _⟩ :=
    outbound_shape { name := str "s", item := [privatekeyItem, passwordItem] }
      exampleTemplate 7 _ rfl
  have hcleared : (exampleTemplate.Fields.filter
      (fun d => decide (some d.FieldSlugName ∉
        ({ name := str "s", item := [privatekeyItem, passwordItem] } : ResourceData).item.map
          (·.field)))).map
      (fun d => ({ Slug := d.FieldSlugName, FieldID := d.SecretTemplateFieldID,
                   ItemValue := [] } : SecretField)) =
      [{ Slug := str "username", FieldID := 101, ItemValue := [] }] := by decide
  rw [hcleared] at h1
  exact ⟨_, cs, rfl, h1, h2⟩

/-! ### Attribute overwrite (C14) and the absent field collection (C16) -/

/-- C14: a prior item whose slug matches a server field is stored, at its position,
with slug, filename and descriptive metadata taken from the first server field with
that slug and with its own encoding flag; its stored value is the server field's
value, except that it is the base64 encoding (applied once) of the server field's
value when the item's encoding flag is true and the server field is a file. No
other attribute of the prior item survives. -/
theorem inbound_overwrite (model : Secret) (resourceSecret : ResourceData)
    (fields : List SecretField) (i : Nat) (item : ResourceItem) (slug : GoString)
    (serverField : SecretField)
    (hfields : model.Fields = some fields)
    (hitem : resourceSecret.item[i]? = some item)
    (hslug : item.field = some slug)
    (hfirst : fields.find? (fun f => decide (f.Slug = slug)) = some serverField) :
    ∃ resourceSecret1 stored,
      modelToResourceSecret model resourceSecret = .ok resourceSecret1 ∧
      resourceSecret1.item[i]? = some stored ∧
      stored.field = item.field ∧
      stored =
        { field := some serverField.Slug
          value := some (if serverField.IsFile = true ∧ item.file_encoded = some true then
            encodeToString serverField.ItemValue else serverField.ItemValue)
          filename := some serverField.Filename
          file_encoded := item.file_encoded
          field_description := some serverField.FieldDescription
          field_id := some serverField.FieldID
          field_name := some serverField.FieldName
          file_attachment_id := some serverField.FileAttachmentID
          is_file := some serverField.IsFile
          is_notes := some serverField.IsNotes
          is_password := some serverField.IsPassword
          item_id := some serverField.ItemID } := by
  have hstored := storedItems_eq model.Name fields resourceSecret.item
  rw [← hfields] at hstored
  obtain ⟨rd1, hrd1, hitems⟩ := modelToResourceSecret_isOk model resourceSecret hstored
  have hlt : i < resourceSecret.item.length := by
    by_contra hge
    rw [List.getElem?_eq_none (Nat.le_of_not_lt hge)] at hitem
    cases hitem
  have hslugeq : serverField.Slug = slug := by
    have := List.find?_some hfirst
    simpa using this
  refine ⟨rd1, storeItem fields item, hrd1, ?_, ?_, ?_⟩
  · rw [hitems, List.getElem?_append_left (by rw [List.length_map]; exact hlt),
      List.getElem?_map, hitem]
    rfl
  · rw [storeItem_field, hslug, scanFields_of_find hfirst, hslugeq]
  · rw [storeItem_shape, hslug, scanFields_of_find hfirst]
    by_cases hc : serverField.IsFile = true ∧ item.file_encoded = some true
    · simp [hc.1, hc.2, mapModelFieldToResourceSecretItem]
    · have hb : (serverField.IsFile && item.file_encoded == some true) = false := by
        rcases Bool.eq_false_or_eq_true serverField.IsFile with h1 | h1
        · have : item.file_encoded ≠ some true := fun h2 => hc ⟨h1, h2⟩
          simp [h1, this]
        · simp [h1]
      simp only [hb, Bool.false_eq_true, if_false, hc, mapModelFieldToResourceSecretItem]

/-- Witness of C14: the prior item `privatekey`, flagged as encoded and carrying a
local value and filename, against a server file field with the value `hello`. -/
theorem inbound_overwrite_witness :
    ∃ resourceSecret1 stored,
      modelToResourceSecret
        { Fields := some [textField "username" "admin",
                          { Slug := str "privatekey", IsFile := true, ItemValue := str "hello",
                            Filename := str "id_rsa", FieldID := 103, ItemID := 9 }] }
        { item := [{ field := some (str "privatekey"), value := some (str "local"),
                     filename := some (str "mine"), file_encoded := some true }] } =
          .ok resourceSecret1 ∧
      resourceSecret1.item[0]? = some stored ∧
      stored.value = some (str "aGVsbG8=") ∧ stored.filename = some (str "id_rsa") ∧
      stored.file_encoded = some true ∧ stored.item_id = some 9 := by
  obtain ⟨rd1, stored, h1, h2, _, h4⟩ := inbound_overwrite
    { Fields := some [textField "username" "admin",
                      { Slug := str "privatekey", IsFile := true, ItemValue := str "hello",
                        Filename := str "id_rsa", FieldID := 103, ItemID := 9 }] }
    { item := [{ field := some (str "privatekey"), value := some (str "local"),
                 filename := some (str "mine"), file_encoded := some true }] }
    _ 0 _ (str "privatekey")
    { Slug := str "privatekey", IsFile := true, ItemValue := str "hello",
      Filename := str "id_rsa", FieldID := 103, ItemID := 9 }
    rfl rfl rfl (by decide)
  refine ⟨rd1, stored, h1, h2, ?_, ?_, ?_, ?_⟩ <;> rw [h4] <;> decide

/-- C16: when the server Secret's field collection is nil, the inbound conversion
returns no error and stores the empty item list, whatever the prior item list is:
every prior item is dropped and none raises an unrecognized-field error. -/
theorem inbound_nil_fields (model : Secret) (resourceSecret : ResourceData)
    (hnil : model.Fields = none) :
    ∃ resourceSecret1, modelToResourceSecret model resourceSecret = .ok resourceSecret1 ∧
      resourceSecret1.item = [] := by
  have hstored : storedItems model.Name model.Fields resourceSecret.item = .ok [] := by
    rw [hnil]; rfl
  exact modelToResourceSecret_isOk model resourceSecret hstored

/-- Witness of C16: two prior items against a Secret without a field collection. -/
theorem inbound_nil_fields_witness :
    ∃ resourceSecret1,
      modelToResourceSecret { Name := str "s", Fields := none }
        { item := [priorItem "username", priorItem "gone"] } = .ok resourceSecret1 ∧
      resourceSecret1.item = [] :=
  inbound_nil_fields { Name := str "s", Fields := none }
    { item := [priorItem "username", priorItem "gone"] } rfl

/-! ### The directive on update (C12) -/

/-- C12: whenever `resourceSecretUpdate` reaches the remote update call (the id is an
integer, the template is fetched and the configuration converts to `secret`), the
Secret it passes to `UpdateSecret` has no directive (`SshKeyArgs` is nil) and
every other attribute and the field collection are those of the outbound
conversion for the same configuration, template and id; this holds whatever the
generation flags of the configuration are. The outcome of the update depends on
the client only through `UpdateSecret` at that Secret. -/
theorem update_strips_directive (resourceSecret : ResourceData) (tss : Server) (id : Int)
    (template : SecretTemplate) (secret : Secret)
    (hid : atoi resourceSecret.Id = some id)
    (htemplate : tss.SecretTemplate resourceSecret.secret_template_id = .ok template)
    (hmodel : resourceSecretToModel resourceSecret template id = .ok secret) :
    ∃ request : Secret,
      request.SshKeyArgs = none ∧
      { request with SshKeyArgs := secret.SshKeyArgs } = secret ∧
      request.Fields = secret.Fields ∧
      resourceSecretUpdate resourceSecret (.ok tss) =
        (match tss.UpdateSecret request with
         | .error e => .error (.remote e)
         | .ok returned =>
           match modelToResourceSecret returned resourceSecret with
           | .error e => .error (.toResource e)
           | .ok resourceSecret1 => .ok resourceSecret1) ∧
      ∀ other : Server,
        other.SecretTemplate resourceSecret.secret_template_id = .ok template →
        other.UpdateSecret request = tss.UpdateSecret request →
        resourceSecretUpdate resourceSecret (.ok other) =
          resourceSecretUpdate resourceSecret (.ok tss) := by
  have hrun : ∀ server : Server,
      server.SecretTemplate resourceSecret.secret_template_id = .ok template →
      resourceSecretUpdate resourceSecret (.ok server) =
        (match server.UpdateSecret { secret with SshKeyArgs := none } with
         | .error e => .error (.remote e)
         | .ok returned =>
           match modelToResourceSecret returned resourceSecret with
           | .error e => .error (.toResource e)
           | .ok resourceSecret1 => .ok resourceSecret1) := by
    intro server hserver
    unfold resourceSecretUpdate fetchTemplateForResourceSecret
    simp only [hid, hserver, hmodel]
  refine ⟨{ secret with SshKeyArgs := none }, rfl, rfl, rfl, hrun tss htemplate, ?_⟩
  intro other hother hsame
  rw [hrun other hother, hrun tss htemplate, hsame]

/-- Witness of C12: a configuration with `generate_ssh_keys` set converts to a Secret
with the directive, and the update passes a Secret without it, which the example
client accepts. -/
theorem update_strips_directive_witness :
    ∃ secret request resourceSecret1,
      resourceSecretToModel generatingConfig exampleTemplate 7 = .ok secret ∧
      secret.SshKeyArgs = some { GeneratePassphrase := false, GenerateSshKeys := true } ∧
      request.SshKeyArgs = none ∧ request.Fields = secret.Fields ∧
      exampleServer.UpdateSecret request = .ok request ∧
      resourceSecretUpdate generatingConfig (.ok exampleServer) = .ok resourceSecret1 := by
  obtain ⟨request, h1, _, h3, _, _⟩ :=
    update_strips_directive generatingConfig exampleServer 7 exampleTemplate _
      (by decide) rfl rfl
  refine ⟨_, request, _, rfl, rfl, h1, h3, ?_, rfl⟩
  simp only [exampleServer, h1, if_true]

/-! ### Deterministic error reporting (C15) -/

/-- The conversion of one item follows the specification's order of checks. -/
theorem convertItem_spec (secretName : GoString) (template : SecretTemplate)
    (item : ResourceItem) :
    (∀ e, specItemError secretName template item = some e →
      convertItem secretName template item = .error e) ∧
    (specItemError secretName template item = none →
      ∃ f, convertItem secretName template item = .ok f) := by
  unfold specItemError convertItem
  cases hfield : item.field with
  | none => simp
  | some slug =>
    cases htf : template.GetField slug with
    | none => simp [htf]
    | some tf =>
      cases hv : item.value with
      | none => simp [htf]
      | some v =>
        cases hfile : tf.IsFile with
        | false => simp [htf, hfile]
        | true =>
          by_cases henc : item.file_encoded = some true
          · cases hd : decodeString v with
            | none => simp [htf, hfile, henc, hd]
            | some d => simp [htf, hfile, henc, hd]
          · simp [htf, hfile, henc]

theorem getField_of_mem {template : SecretTemplate}
    (hnodup : (template.Fields.map (·.FieldSlugName)).Nodup) {d : SecretTemplateField}
    (hd : d ∈ template.Fields) : template.GetField d.FieldSlugName = some d := by
  cases h : template.GetField d.FieldSlugName with
  | none => exact absurd rfl (getField_eq_none.1 h d hd)
  | some tf =>
    obtain ⟨htf, hslug⟩ := getField_some h
    rw [List.inj_on_of_nodup_map hnodup htf hd hslug]

/-- Reordering the field definitions of a template with distinct slugs does not change
what a slug resolves to. -/
theorem getField_perm {template other : SecretTemplate}
    (hperm : other.Fields.Perm template.Fields)
    (hnodup : (template.Fields.map (·.FieldSlugName)).Nodup) (slug : GoString) :
    other.GetField slug = template.GetField slug := by
  have hnodup2 : (other.Fields.map (·.FieldSlugName)).Nodup :=
    (hperm.map _).nodup_iff.2 hnodup
  cases h : template.GetField slug with
  | none =>
    rw [getField_eq_none] at h ⊢
    exact fun d hd => h d (hperm.mem_iff.1 hd)
  | some tf =>
    obtain ⟨htf, hslug⟩ := getField_some h
    rw [← hslug]
    exact getField_of_mem hnodup2 (hperm.mem_iff.2 htf)

theorem convertItems_perm (secretName : GoString) {template other : SecretTemplate}
    (hperm : other.Fields.Perm template.Fields)
    (hnodup : (template.Fields.map (·.FieldSlugName)).Nodup) (items : List ResourceItem) :
    convertItems secretName other items = convertItems secretName template items := by
  have hitem : ∀ item, convertItem secretName other item = convertItem secretName template item := by
    intro item
    unfold convertItem
    cases item.field with
    | none => rfl
    | some slug => simp only [getField_perm hperm hnodup slug]
  induction items with
  | nil => rfl
  | cons item rest ih => simp only [convertItems, hitem, ih]

/-- C15: when the items before `item` are valid and `item` is invalid, the conversion
returns the error of `item`, the checks on an item being applied in the order slug
(missing, then unknown), value, encoding: a missing slug gives the
missing-field-name error, an unknown slug the unrecognized-field-name error
whatever the value is, a missing value the missing-value error whatever the
encoding flag is, and only then malformed base64 on an encoded file item is
reported. The items after `item` are arbitrary, and reordering the definitions of
a template with distinct slugs returns the same error. -/
theorem first_invalid_item_error (resourceSecret : ResourceData) (template : SecretTemplate)
    (id : Int) (pre post : List ResourceItem) (item : ResourceItem) (e : ConvError)
    (hitems : resourceSecret.item = pre ++ item :: post)
    (hvalid : ∀ p ∈ pre, specItemError resourceSecret.name template p = none)
    (hinvalid : specItemError resourceSecret.name template item = some e) :
    resourceSecretToModel resourceSecret template id = .error e ∧
    (item.field = none → e = .missingFieldName resourceSecret.name) ∧
    (∀ slug, item.field = some slug → template.GetField slug = none →
      e = .unrecognizedFieldName resourceSecret.name (some slug)) ∧
    (∀ slug tf, item.field = some slug → template.GetField slug = some tf →
      item.value = none → e = .missingValue resourceSecret.name) ∧
    (∀ slug tf value, item.field = some slug → template.GetField slug = some tf →
      item.value = some value →
      e = .corruptInput ∧ tf.IsFile = true ∧ item.file_encoded = some true ∧
        decodeString value = none) ∧
    (∀ other : SecretTemplate, other.Fields.Perm template.Fields →
      (template.Fields.map (·.FieldSlugName)).Nodup →
      resourceSecretToModel resourceSecret other id = .error e) := by
  have hitem := (convertItem_spec resourceSecret.name template item).1 e hinvalid
  have hpre : ∀ p ∈ pre, ∃ f, convertItem resourceSecret.name template p = .ok f :=
    fun p hp => (convertItem_spec resourceSecret.name template p).2 (hvalid p hp)
  have hcs : convertItems resourceSecret.name template resourceSecret.item = .error e := by
    rw [hitems]
    exact (convertItems_error hitem post pre).2 hpre
  refine ⟨resourceSecretToModel_error hcs, ?_, ?_, ?_, ?_, ?_⟩
  · intro hnone
    unfold convertItem at hitem
    rw [hnone] at hitem
    simpa using hitem.symm
  · intro slug hslug hunknown
    unfold convertItem at hitem
    rw [hslug] at hitem
    simp only [hunknown] at hitem
    simpa using hitem.symm
  · intro slug tf hslug htf hvalue
    unfold convertItem at hitem
    rw [hslug] at hitem
    simp only [htf, hvalue] at hitem
    simpa using hitem.symm
  · intro slug tf value hslug htf hvalue
    unfold convertItem at hitem
    rw [hslug] at hitem
    simp only [htf, hvalue] at hitem
    cases hfile : tf.IsFile with
    | false => simp [hfile] at hitem
    | true =>
      by_cases henc : item.file_encoded = some true
      · cases hd : decodeString value with
        | none =>
          simp [hfile, henc, hd] at hitem
          exact ⟨hitem.symm, rfl, henc, rfl⟩
        | some d => simp [hfile, henc, hd] at hitem
      · simp [hfile, henc] at hitem
  · intro other hperm hnodup
    apply resourceSecretToModel_error
    rw [convertItems_perm resourceSecret.name hperm hnodup]
    exact hcs

/-- Witness of C15: after a valid item, an item with an unknown slug and no value is
reported as an unknown slug, whatever follows it. -/
theorem first_invalid_item_error_witness :
    resourceSecretToModel
      { name := str "s",
        item := [passwordItem, { field := some (str "doesnotexist") }, valuelessItem] }
      exampleTemplate 7 =
        .error (.unrecognizedFieldName (str "s") (some (str "doesnotexist"))) :=
  (first_invalid_item_error
    { name := str "s",
      item := [passwordItem, { field := some (str "doesnotexist") }, valuelessItem] }
    exampleTemplate 7 [passwordItem] [valuelessItem] { field := some (str "doesnotexist") }
    (.unrecognizedFieldName (str "s") (some (str "doesnotexist")))
    rfl (by decide) (by decide)).1

end TssSecret
